import Mathlib

/-!
Verification of the lazy-loading node cache (cache_loader.rs) and the chunked
serializers (lazy_item_vec.rs, lazy_item_map.rs) against their specification.

The Rust sources are shallowly embedded: machine integers become `Nat` with
explicit `% 2 ^ w` truncation where the source casts, files become functions
`Nat → Nat` from byte positions to byte values, stateful cache operations
become explicit state-passing functions, and fallible code returns `Except`.
Types that live in modules outside the provided sources (`FileIndex`,
`LazyItem`, `ProbLazyItem`, `LRUCache`, `TSHashTable`, `CHUNK_SIZE`) are
modelled from the specification, as documented on each definition.
-/

/-- Error kinds of the buffered-I/O layer (`BufIoError`); the source wraps
`std::io::Error`, of which the cache code distinguishes `InvalidInput`
(deserializing an invalid `FileIndex`), `InvalidData` (malformed UTF-8 in a
string key) and generic I/O failures. -/
inductive BufIoError where
  | invalidInput
  | invalidData
  | ioFailure
deriving DecidableEq, Repr

/-- Modelled from the spec: `FileIndex` (§3) lives in the `lazy_load` module,
outside the provided sources. `Valid { offset : u32, version_id : u32,
version_number : u16 }` is a concrete location in a versioned file; `Invalid`
is the sentinel for "no persisted location". -/
inductive FileIndex where
  | valid (offset : Nat) (version_id : Nat) (version_number : Nat)
  | invalid
deriving DecidableEq, Repr

/-- The value `u32::MAX`, used as the empty-slot and end-of-chain sentinel. -/
def MAX32 : Nat := 2 ^ 32 - 1

/-- The value `u64::MAX`, the combined-index key of `FileIndex::Invalid`. -/
def MAX64 : Nat := 2 ^ 64 - 1

/-- Truncation performed by an `as u32` cast in the source. -/
def asU32 (n : Nat) : Nat := n % 2 ^ 32

/-- `NodeRegistry::combine_index` (cache_loader.rs:224-231):
`(offset << 32) | version_id` for `Valid`, `u64::MAX` for `Invalid`. -/
def NodeRegistry.combine_index : FileIndex → Nat
  | .valid offset version_id _ => (offset <<< 32) ||| version_id
  | .invalid => MAX64

/-- `DenseIndexCache::combine_index` (cache_loader.rs:499-507): same packing
with bit 63 set when `is_level_0`. -/
def DenseIndexCache.combine_index (file_index : FileIndex) (is_level_0 : Bool) : Nat :=
  let level_bit : Nat := if is_level_0 then 1 <<< 63 else 0
  match file_index with
  | .valid offset version_id _ => ((offset <<< 32) ||| version_id) ||| level_bit
  | .invalid => MAX64

/-- `InvertedIndexCache::combine_index` (cache_loader.rs:702-704):
`(data_file_idx << 32) | file_offset`. -/
def InvertedIndexCache.combine_index (file_offset : Nat) (data_file_idx : Nat) : Nat :=
  (data_file_idx <<< 32) ||| file_offset

/-- Modelled from the spec: a `ProbLazyItem` (prob_lazy_load module, outside
the provided sources) is either pending (`new_pending`, carrying only its
`FileIndex`) or ready (`ProbLazyItemState::Ready` with the deserialized data
and its location metadata). -/
inductive ProbLazyItem (α : Type) where
  | pending (file_index : FileIndex)
  | ready (data : α) (file_offset : Nat) (version_id : Nat) (version_number : Nat)
deriving DecidableEq, Repr

/-- Modelled from the spec (§4.1): the LRU registry (`lru_cache` module,
outside the provided sources) maps `u64` keys to values; we model the store
as an association list where the most recent insertion shadows older ones. -/
def LRUCache.get (registry : List (Nat × α)) (k : Nat) : Option α :=
  List.lookup k registry

/-- Modelled from the spec (§4.1): `insert` adds a binding (probabilistic
eviction is irrelevant to the verified claims and never removes the key just
inserted). -/
def LRUCache.insert (registry : List (Nat × α)) (k : Nat) (v : α) : List (Nat × α) :=
  (k, v) :: registry

/-- Modelled from the spec (§4.2): the per-key loading table (`TSHashTable`,
outside the provided sources) maps `u64` keys to shared mutexes whose inner
flag records load completion. `get_or_create` returns the existing entry or
inserts a fresh one with the given initial flag. -/
def TSHashTable.get_or_create (table : List (Nat × Bool)) (k : Nat) (default_flag : Bool) :
    List (Nat × Bool) :=
  match List.lookup k table with
  | some _ => table
  | none => (k, default_flag) :: table

/-- Modelled from the spec (§4.2): `delete` removes every binding of the key
from the loading table. -/
def TSHashTable.delete (table : List (Nat × Bool)) (k : Nat) : List (Nat × Bool) :=
  table.filter (fun p => p.1 ≠ k)

/-- Flag of the per-key mutex currently in the loading table (`false` when
the key is absent, matching a freshly created `Mutex::new(false)`). -/
def TSHashTable.flag (table : List (Nat × Bool)) (k : Nat) : Bool :=
  (List.lookup k table).getD false

/-- Assignment `*load_complete = true` through the shared mutex: the mutex
object lives in the loading table, so the table entry for the key (when
still present) now carries a `true` flag. -/
def TSHashTable.set_flag (table : List (Nat × Bool)) (k : Nat) : List (Nat × Bool) :=
  table.map (fun p => if p.1 = k then (p.1, true) else p)

/-- State of an `InvertedIndexCache` (cache_loader.rs:541-549): the two item
registries and the two loading tables. The buffer managers are kept outside
the state: the dimension file is passed as a read function and the payload
deserializers as explicit functions. -/
structure InvState (Data Sets : Type) where
  data_registry : List (Nat × ProbLazyItem Data)
  sets_registry : List (Nat × ProbLazyItem Sets)
  loading_data : List (Nat × Bool)
  loading_sets : List (Nat × Bool)
deriving DecidableEq, Repr

/-- Outcome of a cache operation together with the post-state. `stuck` marks
the retry loop of the single-flight protocol finding the completion flag
already `true`: in a single-threaded execution the loop re-obtains the same
table entry forever, so the call never returns without another thread
intervening. `panic` marks an `unwrap()` of `None`. -/
inductive GetResult (α : Type) (σ : Type) where
  | ok (item : α) (st : σ)
  | err (e : BufIoError) (st : σ)
  | stuck (st : σ)
  | panic (st : σ)
deriving DecidableEq, Repr

/-- `InvertedIndexCache::get_data` (cache_loader.rs:574-633). The payload
deserializer `deser` abstracts
`InvertedIndexSparseAnnNodeBasicTSHashmapData::deserialize` as a function of
the file offset and data file index. Note the source computes the key as
`Self::combine_index(file_offset, 0)`, passing the literal `0` instead of
`data_file_idx`. -/
def InvertedIndexCache.get_data (deser : Nat → Nat → Except BufIoError Data)
    (st : InvState Data Sets) (file_offset : Nat) (data_file_idx : Nat) :
    GetResult (ProbLazyItem Data) (InvState Data Sets) :=
  let combined_index := InvertedIndexCache.combine_index file_offset 0
  match LRUCache.get st.data_registry combined_index with
  | some item => .ok item st
  | none =>
    let flag := TSHashTable.flag st.loading_data combined_index
    let st1 : InvState Data Sets :=
      { st with loading_data := TSHashTable.get_or_create st.loading_data combined_index false }
    -- retry loop: the registry re-check misses again (single-threaded state is
    -- unchanged), and a `true` completion flag makes the loop spin
    if flag then .stuck st1
    else
      match deser file_offset data_file_idx with
      | .error e => .err e st1
      | .ok data =>
        let item : ProbLazyItem Data := .ready data file_offset 0 0
        let st2 : InvState Data Sets :=
          { st1 with
            data_registry := LRUCache.insert st1.data_registry combined_index item,
            loading_data :=
              TSHashTable.delete (TSHashTable.set_flag st1.loading_data combined_index)
                combined_index }
        .ok item st2

/-- `InvertedIndexCache::get_sets` (cache_loader.rs:635-700). The dimension
file is `dim : Nat → Nat` read as little-endian `u32` words by offset via
`dim`, already modelling `read_u32_with_cursor` after a seek; `deser`
abstracts `VersionedInvertedFixedSetIndex::deserialize`. The source obtains
the per-key mutex from `loading_data` and deletes from `loading_sets`. -/
def InvertedIndexCache.get_sets (dim : Nat → Nat) (deser : Nat → Nat → Except BufIoError Sets)
    (st : InvState Data Sets) (file_offset : Nat) (data_file_idx : Nat) :
    GetResult (ProbLazyItem Sets) (InvState Data Sets) :=
  let combined_index := InvertedIndexCache.combine_index file_offset 0
  match LRUCache.get st.sets_registry combined_index with
  | some item => .ok item st
  | none =>
    let flag := TSHashTable.flag st.loading_data combined_index
    let st1 : InvState Data Sets :=
      { st with loading_data := TSHashTable.get_or_create st.loading_data combined_index false }
    if flag then .stuck st1
    else
      let data_offset := dim file_offset
      match deser data_offset data_file_idx with
      | .error e => .err e st1
      | .ok data =>
        let item : ProbLazyItem Sets := .ready data file_offset 0 0
        let st2 : InvState Data Sets :=
          { st1 with
            sets_registry := LRUCache.insert st1.sets_registry combined_index item,
            loading_data := TSHashTable.set_flag st1.loading_data combined_index,
            loading_sets := TSHashTable.delete st1.loading_sets combined_index }
        .ok item st2

/-- An inverted-index cache with empty registries and loading tables. -/
def InvState.empty (Data Sets : Type) : InvState Data Sets :=
  { data_registry := [], sets_registry := [], loading_data := [], loading_sets := [] }

/-- Modelled from the spec (§3): a `LazyItem<T>` of the `lazy_load` module
(outside the provided sources) is either pending (not yet materialized; the
source represents this as `LazyItem::Valid` with `data: None` and the
`file_index` recorded) or ready with its data and location metadata. -/
inductive LazyItem (α : Type) where
  | pending (file_index : FileIndex)
  | ready (data : α) (version_id : Nat) (version_number : Nat)
deriving DecidableEq, Repr

/-- The tagged union stored by the generic registry (cache_loader.rs:34-79).
The `define_cache_items!` macro enumerates one variant per supported payload
type; two abstract payload types suffice to model the variant tagging. -/
inductive CacheItem (α β : Type) where
  | variantA (item : LazyItem α)
  | variantB (item : LazyItem β)
deriving DecidableEq, Repr

/-- `Cacheable::from_cache_item` for the payload type of `variantA`
(cache_loader.rs:49-55): returns the item when the variant tag matches and
`None` otherwise. -/
def CacheItem.from_cache_itemA : CacheItem α β → Option (LazyItem α)
  | .variantA item => some item
  | _ => none

/-- `Cacheable::into_cache_item` for the payload type of `variantA`
(cache_loader.rs:57-59). -/
def CacheItem.into_cache_itemA (item : LazyItem α) : CacheItem α β :=
  .variantA item

/-- State of a `NodeRegistry` (cache_loader.rs:81-85): the cuckoo filter
(modelled as the set of inserted keys, which the spec's §8 property 8
calls sound: no false negatives) and the generic registry. -/
structure RegState (α β : Type) where
  cuckoo_filter : List Nat
  registry : List (Nat × CacheItem α β)
deriving DecidableEq, Repr

/-- The cuckoo-filtered fast path of `NodeRegistry::get_object`
(cache_loader.rs:125-143): a hit requires the filter to contain the key, the
registry to hold it, and the variant tag to match the requested type. -/
def NodeRegistry.fast_path (st : RegState α β) (combined_index : Nat) :
    Option (LazyItem α) :=
  if combined_index ∈ st.cuckoo_filter then
    match LRUCache.get st.registry combined_index with
    | some obj => CacheItem.from_cache_itemA obj
    | none => none
  else none

/-- The tail of `NodeRegistry::get_object` after `load_function` returns
(cache_loader.rs:179-198): `get_or_insert` into the registry, then unwrap the
typed view of the winning entry; a `Hit` whose variant does not match the
requested type makes `from_cache_item(item).unwrap()` panic. On a `Miss` the
key is inserted into the cuckoo filter. -/
def NodeRegistry.after_load (combined_index : Nat)
    (loaded : RegState α β × List Nat × Except BufIoError (LazyItem α)) :
    GetResult (LazyItem α) (RegState α β × List Nat) :=
  match loaded with
  | (st1, skipm1, .error e) => .err e (st1, skipm1)
  | (st1, skipm1, .ok item) =>
    match LRUCache.get st1.registry combined_index with
    | some winner =>
      match CacheItem.from_cache_itemA winner with
      | some hit => .ok hit (st1, skipm1)
      | none => .panic (st1, skipm1)
    | none =>
      let st2 : RegState α β :=
        { cuckoo_filter := combined_index :: st1.cuckoo_filter,
          registry := LRUCache.insert st1.registry combined_index
            (CacheItem.into_cache_itemA item) }
      .ok item (st2, skipm1)

/-- `NodeRegistry::get_object` (cache_loader.rs:102-199) for the payload type
of `variantA`. The `load_function` is abstracted as a function of the
remaining load budget, the skip set and the cache state (it may recursively
load further objects, mutating the state and the skip set); `file_index` and
the buffer managers are already fixed in it by the caller. -/
def NodeRegistry.get_object (st : RegState α β) (file_index : FileIndex)
    (load_function :
      Nat → List Nat → RegState α β → RegState α β × List Nat × Except BufIoError (LazyItem α))
    (max_loads : Nat) (skipm : List Nat) :
    GetResult (LazyItem α) (RegState α β × List Nat) :=
  let combined_index := NodeRegistry.combine_index file_index
  match NodeRegistry.fast_path st combined_index with
  | some item => .ok item (st, skipm)
  | none =>
    if max_loads = 0 ∨ combined_index ∈ skipm then
      .ok (.pending file_index) (st, skipm)
    else
      NodeRegistry.after_load combined_index
        (load_function (max_loads - 1) (combined_index :: skipm) st)

/-- `NodeRegistry::load_item` (cache_loader.rs:201-222): rejects
`FileIndex::Invalid` with an `InvalidInput` error, otherwise runs the typed
deserializer with a fresh skip set and `max_loads = 1000`. -/
def NodeRegistry.load_item (deser : FileIndex → Nat → List Nat → Except BufIoError α)
    (file_index : FileIndex) : Except BufIoError α :=
  if file_index = FileIndex.invalid then .error .invalidInput
  else deser file_index 1000 []

/-- State of a `DenseIndexCache` (cache_loader.rs:245-261): the node registry
and the per-key loading table (the property registry and batch-load lock are
not involved in the verified claims). -/
structure DenseState (α : Type) where
  registry : List (Nat × ProbLazyItem α)
  loading_items : List (Nat × Bool)
deriving DecidableEq, Repr

/-- The tail of `DenseIndexCache::get_lazy_object` after
`ProbNode::deserialize` returns (cache_loader.rs:414-430): on success wrap
the data in a ready item, insert it into the registry, mark the mutex
complete and delete the loading-table entry; an error propagates, leaving
the loading-table entry in place with its flag still `false`. -/
def DenseIndexCache.after_load (file_index : FileIndex) (combined_index : Nat)
    (loaded : DenseState α × List Nat × Except BufIoError α) :
    GetResult (ProbLazyItem α) (DenseState α × List Nat) :=
  match loaded with
  | (st2, skipm2, .error e) => .err e (st2, skipm2)
  | (st2, skipm2, .ok data) =>
    let meta := match file_index with
      | .valid offset version_id version_number => (offset, version_id, version_number)
      | .invalid => (0, 0, 0)
    let item : ProbLazyItem α := .ready data meta.1 meta.2.1 meta.2.2
    let st3 : DenseState α :=
      { registry := LRUCache.insert st2.registry combined_index item,
        loading_items :=
          TSHashTable.delete (TSHashTable.set_flag st2.loading_items combined_index)
            combined_index }
    .ok item (st3, skipm2)

/-- `DenseIndexCache::get_lazy_object` (cache_loader.rs:356-431). The
deserializer abstracts `ProbNode::deserialize` as a function of the file
index, the remaining budget, the skip set and the cache state (which its
recursive loads may mutate); `is_level_0` selects the buffer managers in the
source and contributes the key's level bit. -/
def DenseIndexCache.get_lazy_object (st : DenseState α) (file_index : FileIndex)
    (deser :
      FileIndex → Nat → List Nat → DenseState α → DenseState α × List Nat × Except BufIoError α)
    (max_loads : Nat) (skipm : List Nat) (is_level_0 : Bool) :
    GetResult (ProbLazyItem α) (DenseState α × List Nat) :=
  let combined_index := DenseIndexCache.combine_index file_index is_level_0
  match LRUCache.get st.registry combined_index with
  | some item => .ok item (st, skipm)
  | none =>
    if max_loads = 0 ∨ combined_index ∈ skipm then
      .ok (.pending file_index) (st, skipm)
    else
      let skipm1 := combined_index :: skipm
      let flag := TSHashTable.flag st.loading_items combined_index
      let st1 : DenseState α :=
        { st with
          loading_items := TSHashTable.get_or_create st.loading_items combined_index false }
      -- retry loop: the registry re-check misses again (single-threaded state
      -- is unchanged), and a `true` completion flag makes the loop spin
      if flag then .stuck (st1, skipm1)
      else
        DenseIndexCache.after_load file_index combined_index
          (deser file_index (max_loads - 1) skipm1 st1)

/-- `DenseIndexCache::load_item` (cache_loader.rs:516-538): rejects
`FileIndex::Invalid` with an `InvalidInput` error, otherwise runs the typed
dense deserializer with a fresh skip set and `max_loads = 1000`. -/
def DenseIndexCache.load_item
    (deser : FileIndex → Nat → List Nat → Bool → Except BufIoError α)
    (file_index : FileIndex) (is_level_0 : Bool) : Except BufIoError α :=
  if file_index = FileIndex.invalid then .error .invalidInput
  else deser file_index 1000 [] is_level_0

/-- Write one byte at position `p`; the buffer-manager stores `u8` values, so
the written value is truncated to a byte. -/
def writeByte (f : Nat → Nat) (p v : Nat) : Nat → Nat :=
  fun q => if q = p then v % 2 ^ 8 else f q

/-- `update_u16_with_cursor`: write a `u16` little-endian at position `p`. -/
def writeU16 (f : Nat → Nat) (p v : Nat) : Nat → Nat :=
  writeByte (writeByte f p v) (p + 1) (v / 2 ^ 8)

/-- `update_u32_with_cursor`: write a `u32` little-endian at position `p`. -/
def writeU32 (f : Nat → Nat) (p v : Nat) : Nat → Nat :=
  writeByte (writeByte (writeByte (writeByte f p v) (p + 1) (v / 2 ^ 8))
    (p + 2) (v / 2 ^ 16)) (p + 3) (v / 2 ^ 24)

/-- `read_u16_with_cursor`: read a `u16` little-endian at position `p`. -/
def readU16 (f : Nat → Nat) (p : Nat) : Nat :=
  f p + 2 ^ 8 * f (p + 1)

/-- `read_u32_with_cursor`: read a `u32` little-endian at position `p`. -/
def readU32 (f : Nat → Nat) (p : Nat) : Nat :=
  f p + 2 ^ 8 * f (p + 1) + 2 ^ 16 * f (p + 2) + 2 ^ 24 * f (p + 3)

/-- `update_with_cursor`: write a byte slice starting at position `p`. -/
def writeBytes (f : Nat → Nat) (p : Nat) : List Nat → Nat → Nat
  | [] => f
  | b :: bs => writeBytes (writeByte f p b) (p + 1) bs

/-- `read_with_cursor` into a buffer of length `n` starting at position `p`. -/
def readBytes (f : Nat → Nat) (p n : Nat) : List Nat :=
  (List.range n).map fun i => f (p + i)

/-- The tag bit of the `IdentityMapKey` wire format (`MSB`,
lazy_item_map.rs:11). -/
def MSB : Nat := 1 <<< 31

/-- `IdentityMapKey` (identity_collections module): either a UTF-8 string or
a `u32`. A Rust `String` is modelled as its byte vector (`into_bytes`), whose
elements are `u8` values forming a valid UTF-8 sequence. -/
inductive IdentityMapKey where
  | str (bytes : List Nat)
  | int (n : Nat)
deriving DecidableEq, Repr

/-- A UTF-8 continuation byte (`0x80..=0xBF`). -/
def isUtf8Cont (b : Nat) : Bool := 0x80 ≤ b && b ≤ 0xBF

/-- Validity of a byte sequence as UTF-8, as checked by Rust's
`String::from_utf8` (RFC 3629: no overlong forms, no surrogates, no code
points above U+10FFFF). -/
def utf8Valid : List Nat → Bool
  | [] => true
  | b :: rest =>
    if b ≤ 0x7F then utf8Valid rest
    else if 0xC2 ≤ b && b ≤ 0xDF then
      match rest with
      | c :: rest2 => isUtf8Cont c && utf8Valid rest2
      | [] => false
    else if b = 0xE0 then
      match rest with
      | c :: d :: rest2 => (0xA0 ≤ c && c ≤ 0xBF) && isUtf8Cont d && utf8Valid rest2
      | _ => false
    else if (0xE1 ≤ b && b ≤ 0xEC) || b = 0xEE || b = 0xEF then
      match rest with
      | c :: d :: rest2 => isUtf8Cont c && isUtf8Cont d && utf8Valid rest2
      | _ => false
    else if b = 0xED then
      match rest with
      | c :: d :: rest2 => (0x80 ≤ c && c ≤ 0x9F) && isUtf8Cont d && utf8Valid rest2
      | _ => false
    else if b = 0xF0 then
      match rest with
      | c :: d :: e :: rest2 =>
        (0x90 ≤ c && c ≤ 0xBF) && isUtf8Cont d && isUtf8Cont e && utf8Valid rest2
      | _ => false
    else if 0xF1 ≤ b && b ≤ 0xF3 then
      match rest with
      | c :: d :: e :: rest2 =>
        isUtf8Cont c && isUtf8Cont d && isUtf8Cont e && utf8Valid rest2
      | _ => false
    else if b = 0xF4 then
      match rest with
      | c :: d :: e :: rest2 =>
        (0x80 ≤ c && c ≤ 0x8F) && isUtf8Cont d && isUtf8Cont e && utf8Valid rest2
      | _ => false
    else false

/-- `IdentityMapKey::serialize` (lazy_item_map.rs:159-180): remember the
start position, write `MSB | len` then the raw bytes for a string, or the
value itself for an integer; return the start position (`as u32`). The
result is (file after, cursor after, returned offset). -/
def IdentityMapKey.serialize (f : Nat → Nat) (pos : Nat) :
    IdentityMapKey → (Nat → Nat) × Nat × Nat
  | .str bytes =>
    let len := asU32 bytes.length
    (writeBytes (writeU32 f pos (MSB ||| len)) (pos + 4) bytes,
      pos + 4 + bytes.length, asU32 pos)
  | .int n => (writeU32 f pos n, pos + 4, asU32 pos)

instance [DecidableEq ε] [DecidableEq α] : DecidableEq (Except ε α) := fun x y =>
  match x, y with
  | .ok a, .ok b => if h : a = b then .isTrue (by rw [h]) else .isFalse (by simp [h])
  | .error a, .error b => if h : a = b then .isTrue (by rw [h]) else .isFalse (by simp [h])
  | .ok _, .error _ => .isFalse (by simp)
  | .error _, .ok _ => .isFalse (by simp)

/-- Result of running a deserializer, together with how many cursors the
function itself opened and closed on the taken path. -/
structure DeserRun (α : Type) where
  result : Except BufIoError α
  cursors_opened : Nat
  cursors_closed : Nat
deriving DecidableEq, Repr

/-- `IdentityMapKey::deserialize` (lazy_item_map.rs:181-223): read the first
`u32`; MSB clear yields `Int` directly (returning without reaching the
`close_cursor` call), MSB set yields a string of the low 31 bits' length,
validated as UTF-8 (an invalid sequence propagates an error before the
`close_cursor` call). `Invalid` file indices are rejected before any cursor
is opened. -/
def IdentityMapKey.deserialize (f : Nat → Nat) : FileIndex → DeserRun IdentityMapKey
  | .valid offset _ _ =>
    let num := readU32 f offset
    if num &&& MSB = 0 then
      ⟨.ok (.int num), 1, 0⟩
    else
      let len := ((num <<< 1) % 2 ^ 32) >>> 1
      let bytes := readBytes f (offset + 4) len
      if utf8Valid bytes then ⟨.ok (.str bytes), 1, 1⟩
      else ⟨.error .invalidData, 1, 0⟩
  | .invalid => ⟨.error .invalidInput, 0, 0⟩

/-- Interface of the items stored in a `LazyItemVec`/`LazyItemMap`: the
source serializes items through `CustomSerialize::serialize` (returning the
`u32` offset where the item was written) and reloads them through
`LazyItem::deserialize` at the offset, version number and version id stored
in the slot (`get_current_version_number` / `get_current_version`). Both
live outside the provided sources and are abstracted as functions. -/
structure ItemCodec (It : Type) where
  ser : (Nat → Nat) → Nat → It → (Nat → Nat) × Nat × Nat
  deser : (Nat → Nat) → Nat → Nat → Nat → Except BufIoError It
  vnum : It → Nat
  vid : It → Nat

/-- One empty 10-byte slot of the sequence layout (lazy_item_vec.rs:36-40):
`u32::MAX`, `u16::MAX`, `u32::MAX` written sequentially. -/
def writeEmptySlotVec (f : Nat → Nat) (pos : Nat) : Nat → Nat :=
  writeU32 (writeU16 (writeU32 f pos MAX32) (pos + 4) (2 ^ 16 - 1)) (pos + 6) MAX32

/-- The placeholder loop of `LazyItemVec::serialize` (lazy_item_vec.rs:35-40):
`CHUNK_SIZE` empty slots written sequentially. -/
def writePlaceholdersVec : Nat → (Nat → Nat) → Nat → (Nat → Nat) × Nat
  | 0, f, pos => (f, pos)
  | n + 1, f, pos => writePlaceholdersVec n (writeEmptySlotVec f pos) (pos + 10)

/-- The item loop of `LazyItemVec::serialize` (lazy_item_vec.rs:46-55):
serialize each item of the chunk at the running cursor, then seek back and
patch its 10-byte slot with the returned offset and the item's version
metadata, then seek forward again. -/
def serializeItemsVec (c : ItemCodec It) (placeholder_start : Nat) :
    List It → Nat → (Nat → Nat) → Nat → (Nat → Nat) × Nat
  | [], _, f, pos => (f, pos)
  | x :: rest, j, f, pos =>
    let s := c.ser f pos x
    let placeholder_pos := placeholder_start + j * 10
    let f2 := writeU32 s.1 placeholder_pos s.2.2
    let f3 := writeU16 f2 (placeholder_pos + 4) (c.vnum x)
    let f4 := writeU32 f3 (placeholder_pos + 6) (c.vid x)
    serializeItemsVec c placeholder_start rest (j + 1) f4 s.2.1

/-- The chunk loop of `LazyItemVec::serialize` (lazy_item_vec.rs:30-66).
`CS` is the `CHUNK_SIZE` constant of the `lazy_load` module (outside the
provided sources; the development is parametric in it). The `fuel` argument
only bounds the recursion for Lean's termination checker: each iteration
handles one chunk of `CS` items, so `xs.length` fuel always suffices when
`CS > 0`. -/
def serializeChunksVec (CS : Nat) (c : ItemCodec It) :
    Nat → List It → (Nat → Nat) → Nat → (Nat → Nat) × Nat
  | 0, _, f, pos => (f, pos)
  | fuel + 1, xs, f, pos =>
    let chunk := xs.take CS
    let rest := xs.drop CS
    let placeholder_start := asU32 pos
    let p1 := writePlaceholdersVec CS f pos
    let next_chunk_placeholder := asU32 p1.2
    let f2 := writeU32 p1.1 p1.2 MAX32
    let p3 := serializeItemsVec c placeholder_start chunk 0 f2 (p1.2 + 4)
    let next_chunk_start := asU32 p3.2
    if rest.isEmpty then (writeU32 p3.1 next_chunk_placeholder MAX32, p3.2)
    else serializeChunksVec CS c fuel rest (writeU32 p3.1 next_chunk_placeholder next_chunk_start) p3.2

/-- `LazyItemVec::serialize` (lazy_item_vec.rs:16-68): the empty list writes
nothing and returns `u32::MAX`; otherwise the chunks are written starting at
the current cursor position, which is returned. -/
def LazyItemVec.serialize (CS : Nat) (c : ItemCodec It) (xs : List It)
    (f : Nat → Nat) (pos : Nat) : (Nat → Nat) × Nat × Nat :=
  if xs.isEmpty then (f, pos, MAX32)
  else
    let start_offset := asU32 pos
    let p := serializeChunksVec CS c xs.length xs f pos
    (p.1, p.2, start_offset)

/-- The slot loop of `LazyItemVec::deserialize` (lazy_item_vec.rs:92-113):
read each 10-byte slot of the chunk; `u32::MAX` offsets are skipped, other
offsets are deserialized through the item codec. The first argument counts
the remaining slots (`CS` at the start with index `0`). -/
def deserializeSlotsVec (c : ItemCodec It) (f : Nat → Nat) (chunk_start : Nat) :
    Nat → Nat → Except BufIoError (List It)
  | 0, _ => .ok []
  | n + 1, i =>
    let item_offset := readU32 f (chunk_start + i * 10)
    let item_version_number := readU16 f (chunk_start + i * 10 + 4)
    let item_version_id := readU32 f (chunk_start + i * 10 + 6)
    if item_offset = MAX32 then deserializeSlotsVec c f chunk_start n (i + 1)
    else
      match c.deser f item_offset item_version_number item_version_id with
      | .error e => .error e
      | .ok x =>
        match deserializeSlotsVec c f chunk_start n (i + 1) with
        | .error e => .error e
        | .ok rest => .ok (x :: rest)

/-- The chunk loop of `LazyItemVec::deserialize` (lazy_item_vec.rs:91-121):
after the slots of a chunk, read the next-chunk link at `chunk + CS * 10`
and follow it until `u32::MAX`. The source's loop is unbounded; `fuel`
bounds the number of chunks followed for Lean's termination checker and is
supplied generously in the theorems. -/
def deserializeChunksVec (CS : Nat) (c : ItemCodec It) (f : Nat → Nat) :
    Nat → Nat → Except BufIoError (List It)
  | 0, _ => .error .ioFailure
  | fuel + 1, current_chunk =>
    match deserializeSlotsVec c f current_chunk CS 0 with
    | .error e => .error e
    | .ok items =>
      let next := readU32 f (current_chunk + CS * 10)
      if next = MAX32 then .ok items
      else
        match deserializeChunksVec CS c f fuel next with
        | .error e => .error e
        | .ok more => .ok (items ++ more)

/-- `LazyItemVec::deserialize` (lazy_item_vec.rs:69-127): `Invalid` and the
`u32::MAX` offset yield the empty vector before any cursor is opened;
otherwise one cursor is opened, the chunk chain is read, and the cursor is
closed before returning the collected items (an error propagates before the
`close_cursor` call). -/
def LazyItemVec.deserialize (CS : Nat) (c : ItemCodec It) (f : Nat → Nat)
    (file_index : FileIndex) (fuel : Nat) : DeserRun (List It) :=
  match file_index with
  | .invalid => ⟨.ok [], 0, 0⟩
  | .valid offset _ _ =>
    if offset = MAX32 then ⟨.ok [], 0, 0⟩
    else
      match deserializeChunksVec CS c f fuel offset with
      | .error e => ⟨.error e, 1, 0⟩
      | .ok items => ⟨.ok items, 1, 1⟩

/-- One empty 14-byte slot of the map layout (lazy_item_map.rs:42-47):
`u32::MAX`, `u32::MAX`, `u16::MAX`, `u32::MAX` written sequentially. -/
def writeEmptySlotMap (f : Nat → Nat) (pos : Nat) : Nat → Nat :=
  writeU32 (writeU16 (writeU32 (writeU32 f pos MAX32) (pos + 4) MAX32)
    (pos + 8) (2 ^ 16 - 1)) (pos + 10) MAX32

/-- The placeholder loop of `LazyItemMap::serialize` (lazy_item_map.rs:41-47):
`CHUNK_SIZE` empty 14-byte slots written sequentially. -/
def writePlaceholdersMap : Nat → (Nat → Nat) → Nat → (Nat → Nat) × Nat
  | 0, f, pos => (f, pos)
  | n + 1, f, pos => writePlaceholdersMap n (writeEmptySlotMap f pos) (pos + 14)

/-- The entry loop of `LazyItemMap::serialize` (lazy_item_map.rs:53-69):
serialize the key, then the value, at the running cursor; seek back and
patch the 14-byte slot with both offsets and the value's version metadata;
seek forward again. -/
def serializeItemsMap (c : ItemCodec It) (placeholder_start : Nat) :
    List (IdentityMapKey × It) → Nat → (Nat → Nat) → Nat → (Nat → Nat) × Nat
  | [], _, f, pos => (f, pos)
  | (key, value) :: rest, j, f, pos =>
    let ks := IdentityMapKey.serialize f pos key
    let vs := c.ser ks.1 ks.2.1 value
    let placeholder_pos := placeholder_start + j * 14
    let f2 := writeU32 vs.1 placeholder_pos ks.2.2
    let f3 := writeU32 f2 (placeholder_pos + 4) vs.2.2
    let f4 := writeU16 f3 (placeholder_pos + 8) (c.vnum value)
    let f5 := writeU32 f4 (placeholder_pos + 10) (c.vid value)
    serializeItemsMap c placeholder_start rest (j + 1) f5 vs.2.1

/-- The chunk loop of `LazyItemMap::serialize` (lazy_item_map.rs:36-80), with
14-byte slots. As for the sequence layout, `CS` is the out-of-source
`CHUNK_SIZE` constant and `fuel` only bounds the recursion (one chunk per
unit, so `length` fuel suffices when `CS > 0`). -/
def serializeChunksMap (CS : Nat) (c : ItemCodec It) :
    Nat → List (IdentityMapKey × It) → (Nat → Nat) → Nat → (Nat → Nat) × Nat
  | 0, _, f, pos => (f, pos)
  | fuel + 1, xs, f, pos =>
    let chunk := xs.take CS
    let rest := xs.drop CS
    let placeholder_start := asU32 pos
    let p1 := writePlaceholdersMap CS f pos
    let next_chunk_placeholder := asU32 p1.2
    let f2 := writeU32 p1.1 p1.2 MAX32
    let p3 := serializeItemsMap c placeholder_start chunk 0 f2 (p1.2 + 4)
    let next_chunk_start := asU32 p3.2
    if rest.isEmpty then (writeU32 p3.1 next_chunk_placeholder MAX32, p3.2)
    else serializeChunksMap CS c fuel rest (writeU32 p3.1 next_chunk_placeholder next_chunk_start) p3.2

/-- `LazyItemMap::serialize` (lazy_item_map.rs:17-82): an empty map writes
nothing and returns `u32::MAX`; otherwise the entries (in iteration order of
the underlying identity map, modelled as the list order) are written in
chunks starting at the current cursor position, which is returned. -/
def LazyItemMap.serialize (CS : Nat) (c : ItemCodec It) (xs : List (IdentityMapKey × It))
    (f : Nat → Nat) (pos : Nat) : (Nat → Nat) × Nat × Nat :=
  if xs.isEmpty then (f, pos, MAX32)
  else
    let start_offset := asU32 pos
    let p := serializeChunksMap CS c xs.length xs f pos
    (p.1, p.2, start_offset)

/-- The slot loop of `LazyItemMap::deserialize` (lazy_item_map.rs:107-141):
read each 14-byte slot; `u32::MAX` key offsets are skipped, otherwise the
key is deserialized at the key offset under the map's own version and the
value through the item codec at the slot's offset and version metadata. -/
def deserializeSlotsMap (c : ItemCodec It) (f : Nat → Nat) (chunk_start : Nat)
    (version_id : Nat) (version_number : Nat) :
    Nat → Nat → Except BufIoError (List (IdentityMapKey × It))
  | 0, _ => .ok []
  | n + 1, i =>
    let key_offset := readU32 f (chunk_start + i * 14)
    let item_offset := readU32 f (chunk_start + i * 14 + 4)
    let item_version_number := readU16 f (chunk_start + i * 14 + 8)
    let item_version_id := readU32 f (chunk_start + i * 14 + 10)
    if key_offset = MAX32 then
      deserializeSlotsMap c f chunk_start version_id version_number n (i + 1)
    else
      match (IdentityMapKey.deserialize f
          (.valid key_offset version_id version_number)).result with
      | .error e => .error e
      | .ok key =>
        match c.deser f item_offset item_version_number item_version_id with
        | .error e => .error e
        | .ok value =>
          match deserializeSlotsMap c f chunk_start version_id version_number n (i + 1) with
          | .error e => .error e
          | .ok rest => .ok ((key, value) :: rest)

/-- The chunk loop of `LazyItemMap::deserialize` (lazy_item_map.rs:106-149):
follow next-chunk links at `chunk + CS * 14` until `u32::MAX`; `fuel` bounds
the chunks followed, as for the sequence layout. -/
def deserializeChunksMap (CS : Nat) (c : ItemCodec It) (f : Nat → Nat)
    (version_id : Nat) (version_number : Nat) :
    Nat → Nat → Except BufIoError (List (IdentityMapKey × It))
  | 0, _ => .error .ioFailure
  | fuel + 1, current_chunk =>
    match deserializeSlotsMap c f current_chunk version_id version_number CS 0 with
    | .error e => .error e
    | .ok items =>
      let next := readU32 f (current_chunk + CS * 14)
      if next = MAX32 then .ok items
      else
        match deserializeChunksMap CS c f version_id version_number fuel next with
        | .error e => .error e
        | .ok more => .ok (items ++ more)

/-- `LazyItemMap::deserialize` (lazy_item_map.rs:84-156): `Invalid` and the
`u32::MAX` offset yield the empty map before any cursor is opened; otherwise
one cursor walks the chunk chain and is closed before the collected entries
are returned (an error propagates before the `close_cursor` call). -/
def LazyItemMap.deserialize (CS : Nat) (c : ItemCodec It) (f : Nat → Nat)
    (file_index : FileIndex) (fuel : Nat) : DeserRun (List (IdentityMapKey × It)) :=
  match file_index with
  | .invalid => ⟨.ok [], 0, 0⟩
  | .valid offset version_id version_number =>
    if offset = MAX32 then ⟨.ok [], 0, 0⟩
    else
      match deserializeChunksMap CS c f version_id version_number fuel offset with
      | .error e => ⟨.error e, 1, 0⟩
      | .ok items => ⟨.ok items, 1, 1⟩

/-- Claim C10: the combined-index encoding is not injective at the Invalid
sentinel: the Valid file index with offset `u32::MAX`, version id `u32::MAX`
(level-0 bit clear) is mapped by both `NodeRegistry::combine_index` and
`DenseIndexCache::combine_index` to `u64::MAX`, the key of
`FileIndex::Invalid`, so such a record would alias the Invalid sentinel. -/
theorem C10_combine_index_aliases_invalid_sentinel :
    NodeRegistry.combine_index (.valid MAX32 MAX32 0) = NodeRegistry.combine_index .invalid ∧
    NodeRegistry.combine_index (.valid MAX32 MAX32 0) = MAX64 ∧
    DenseIndexCache.combine_index (.valid MAX32 MAX32 0) false =
      DenseIndexCache.combine_index .invalid false ∧
    DenseIndexCache.combine_index (.valid MAX32 MAX32 0) false = MAX64 := by
  refine ⟨by decide, by decide, by decide, by decide⟩

/-- Claim C1: evaluation of the code at the failing input. `get_data` keys
the loaded record under `combine_index(file_offset, 0) = file_offset`,
ignoring `data_file_idx`: loading `(offset 5, data_file_idx 1)` stores under
key `5`, not under `(1 << 32) | 5`, and a subsequent `get_data(5, 2)` —
whose deserializer would produce different data — returns the record loaded
for part 1: records with equal offsets but different data file indices
alias. -/
theorem C1_get_data_key_ignores_data_file_idx :
    InvertedIndexCache.get_data (fun _ _ => (.ok 0 : Except BufIoError Nat))
        (InvState.empty Nat Nat) 5 1
      = .ok (.ready 0 5 0 0) ⟨[(5, .ready 0 5 0 0)], [], [], []⟩ ∧
    InvertedIndexCache.combine_index 5 1 = 2 ^ 32 + 5 ∧
    (5 : Nat) ≠ 2 ^ 32 + 5 ∧
    InvertedIndexCache.get_data (fun _ _ => (.ok 1 : Except BufIoError Nat))
        (⟨[(5, .ready 0 5 0 0)], [], [], []⟩ : InvState Nat Nat) 5 2
      = .ok (.ready 0 5 0 0) ⟨[(5, .ready 0 5 0 0)], [], [], []⟩ := by
  refine ⟨by decide, by decide, by decide, by decide⟩

/-- Claim C2: evaluation of the code at the failing input. A successful
`get_sets` on a fresh cache obtains its per-key mutex from `loading_data`
but deletes from `loading_sets`, so the completed (`true`-flagged) entry for
the key remains in the `loading_data` table — contradicting "obtained from,
and on successful completion removed from, one and the same loading table"
— and a later `get_sets` for the same key (after eviction) finds the stale
completed mutex and spins in the retry loop forever. -/
theorem C2_get_sets_leaves_stale_loading_data_entry :
    InvertedIndexCache.get_sets (fun _ => 7) (fun _ _ => (.ok 0 : Except BufIoError Nat))
        (InvState.empty Nat Nat) 5 1
      = .ok (.ready 0 5 0 0) ⟨[], [(5, .ready 0 5 0 0)], [(5, true)], []⟩ ∧
    TSHashTable.flag [(5, true)] 5 = true ∧
    InvertedIndexCache.get_sets (fun _ => 7) (fun _ _ => (.ok 0 : Except BufIoError Nat))
        (⟨[], [], [(5, true)], []⟩ : InvState Nat Nat) 5 1
      = .stuck ⟨[], [], [(5, true)], []⟩ := by
  refine ⟨by decide, by decide, by decide⟩

/-- Claim C3, counterexample: deserializing with `FileIndex::Invalid` does
not fail for every payload type — `LazyItemVec::deserialize` and
`LazyItemMap::deserialize` both return `Ok` with an empty collection on
`Invalid` instead of an `InvalidInput` error. -/
theorem C3_counterexample_invalid_deserializes_to_empty :
    (LazyItemVec.deserialize 5
        ⟨fun f p _ => (f, p, 0), fun _ _ _ _ => (.ok 0 : Except BufIoError Nat),
          fun _ => 0, fun _ => 0⟩
        (fun _ => 0) .invalid 10).result = .ok [] ∧
    (LazyItemMap.deserialize 5
        ⟨fun f p _ => (f, p, 0), fun _ _ _ _ => (.ok 0 : Except BufIoError Nat),
          fun _ => 0, fun _ => 0⟩
        (fun _ => 0) .invalid 10).result = .ok [] := by
  refine ⟨by decide, by decide⟩

/-- Claim C3, amended: `NodeRegistry::load_item` and
`DenseIndexCache::load_item` reject `FileIndex::Invalid` with an
`InvalidInput` error before invoking any deserializer (so no registry key is
derived from it on that path), and `IdentityMapKey::deserialize` fails on
`Invalid` with an `InvalidInput` error; but `LazyItemMap::deserialize` and
`LazyItemVec::deserialize` return `Ok` with an empty collection on
`Invalid`. -/
theorem C3_invalid_file_index_handling (It : Type)
    (deser : FileIndex → Nat → List Nat → Except BufIoError Nat)
    (dense_deser : FileIndex → Nat → List Nat → Bool → Except BufIoError Nat)
    (is_level_0 : Bool) (f : Nat → Nat) (CS : Nat) (c : ItemCodec It) (fuel : Nat) :
    NodeRegistry.load_item deser .invalid = .error .invalidInput ∧
    DenseIndexCache.load_item dense_deser .invalid is_level_0 = .error .invalidInput ∧
    (IdentityMapKey.deserialize f .invalid).result = .error .invalidInput ∧
    (LazyItemVec.deserialize CS c f .invalid fuel).result = .ok [] ∧
    (LazyItemMap.deserialize CS c f .invalid fuel).result = .ok [] := by
  exact ⟨rfl, rfl, rfl, rfl, rfl⟩

/-- Claim C6, counterexample: the budget/skip guard is checked only after the
registry lookup, so a call with `max_loads = 0` whose key is already cached
returns the cached Ready item, not a Pending item carrying the file index as
the claim requires for every call with `max_loads = 0`. -/
theorem C6_counterexample_registry_hit_beats_guard :
    DenseIndexCache.get_lazy_object
        (⟨[((1 <<< 32) ||| 2, .ready 7 0 0 0)], []⟩ : DenseState Nat)
        (.valid 1 2 3) (fun _ _ s st => (st, s, .ok 0)) 0 [] false
      = .ok (.ready 7 0 0 0) (⟨[((1 <<< 32) ||| 2, .ready 7 0 0 0)], []⟩, []) ∧
    (GetResult.ok (ProbLazyItem.ready 7 0 0 0)
        ((⟨[((1 <<< 32) ||| 2, .ready 7 0 0 0)], []⟩ : DenseState Nat), ([] : List Nat)))
      ≠ .ok (.pending (.valid 1 2 3))
          (⟨[((1 <<< 32) ||| 2, .ready 7 0 0 0)], []⟩, []) := by
  refine ⟨by decide, by decide⟩

/-- Claim C6, amended: for every call to `NodeRegistry::get_object` (and
`DenseIndexCache::get_lazy_object`) with child key `k`, budget `max_loads`
and skip set `S`, provided the initial registry lookup misses (a cache hit
returns the cached item instead): if `max_loads = 0` or `k ∈ S` the call
returns a Pending lazy item carrying `k`'s file index, with the state and
`S` unchanged and without invoking the loader (the result is the same for
every loader); otherwise `k` is inserted into `S` and the loader is invoked
with budget `max_loads - 1` (for `get_lazy_object`, additionally provided
the single-flight completion flag is not already set). -/
theorem C6_budget_and_skip_guard (α β : Type) (st : RegState α β) (dst : DenseState α)
    (file_index : FileIndex) (max_loads : Nat) (skipm : List Nat) (is_level_0 : Bool)
    (hfast : NodeRegistry.fast_path st (NodeRegistry.combine_index file_index) = none)
    (hreg : LRUCache.get dst.registry (DenseIndexCache.combine_index file_index is_level_0)
      = none) :
    (∀ load_function, (max_loads = 0 ∨ NodeRegistry.combine_index file_index ∈ skipm) →
      NodeRegistry.get_object st file_index load_function max_loads skipm
        = .ok (.pending file_index) (st, skipm)) ∧
    (∀ load_function, ¬(max_loads = 0 ∨ NodeRegistry.combine_index file_index ∈ skipm) →
      NodeRegistry.get_object st file_index load_function max_loads skipm
        = NodeRegistry.after_load (NodeRegistry.combine_index file_index)
            (load_function (max_loads - 1) (NodeRegistry.combine_index file_index :: skipm) st)) ∧
    (∀ deser, (max_loads = 0 ∨ DenseIndexCache.combine_index file_index is_level_0 ∈ skipm) →
      DenseIndexCache.get_lazy_object dst file_index deser max_loads skipm is_level_0
        = .ok (.pending file_index) (dst, skipm)) ∧
    (∀ deser, ¬(max_loads = 0 ∨ DenseIndexCache.combine_index file_index is_level_0 ∈ skipm) →
      TSHashTable.flag dst.loading_items (DenseIndexCache.combine_index file_index is_level_0)
        = false →
      DenseIndexCache.get_lazy_object dst file_index deser max_loads skipm is_level_0
        = DenseIndexCache.after_load file_index
            (DenseIndexCache.combine_index file_index is_level_0)
            (deser file_index (max_loads - 1)
              (DenseIndexCache.combine_index file_index is_level_0 :: skipm)
              { dst with loading_items := TSHashTable.get_or_create dst.loading_items (DenseIndexCache.combine_index file_index is_level_0) false })) := by
  refine ⟨?_, ?_, ?_, ?_⟩
  · intro load_function h
    simp [NodeRegistry.get_object, hfast, h]
  · intro load_function h
    simp [NodeRegistry.get_object, hfast, h]
  · intro deser h
    simp [DenseIndexCache.get_lazy_object, hreg, h]
  · intro deser h hflag
    simp [DenseIndexCache.get_lazy_object, hreg, h, hflag]

/-- Witness for C6: on a fresh cache with `max_loads = 0` both functions
return the Pending item untouched, for a loader that would have returned a
Ready item. -/
theorem C6_budget_and_skip_guard_witness :
    NodeRegistry.get_object (⟨[], []⟩ : RegState Nat Nat) (.valid 1 2 3)
        (fun _ s st => (st, s, .ok (.ready 0 0 0))) 0 []
      = .ok (.pending (.valid 1 2 3)) (⟨[], []⟩, []) ∧
    DenseIndexCache.get_lazy_object (⟨[], []⟩ : DenseState Nat) (.valid 1 2 3)
        (fun _ _ s st => (st, s, .ok 0)) 0 [] false
      = .ok (.pending (.valid 1 2 3)) (⟨[], []⟩, []) := by
  have h := C6_budget_and_skip_guard Nat Nat ⟨[], []⟩ ⟨[], []⟩ (.valid 1 2 3) 0 [] false
    (by decide) (by decide)
  exact ⟨h.1 _ (Or.inl rfl), h.2.2.1 _ (Or.inl rfl)⟩

/-- Getting an existing per-key mutex leaves the loading table unchanged. -/
theorem TSHashTable.get_or_create_of_lookup (t : List (Nat × Bool)) (k : Nat) (b d : Bool)
    (h : List.lookup k t = some b) : TSHashTable.get_or_create t k d = t := by
  unfold TSHashTable.get_or_create
  rw [h]

/-- Error case of the `get_or_insert` tail: when the loader's result is an
error, `NodeRegistry::get_object` propagates it with the loader's post-state
and inserts nothing. -/
theorem NodeRegistry.after_load_err_state (α β : Type) (k : Nat)
    (L : RegState α β × List Nat × Except BufIoError (LazyItem α)) (e : BufIoError)
    (h : L.2.2 = .error e) :
    NodeRegistry.after_load k L = .err e (L.1, L.2.1) := by
  rcases L with ⟨st1, skipm1, r⟩
  dsimp only at h
  subst h
  rfl

/-- Error case of the dense insertion tail: a deserializer error propagates
with the deserializer's post-state; no registry insertion, completion-flag
update or loading-table deletion happens. -/
theorem DenseIndexCache.dense_after_load_err_state (α : Type) (file_index : FileIndex) (k : Nat)
    (L : DenseState α × List Nat × Except BufIoError α) (e : BufIoError)
    (h : L.2.2 = .error e) :
    DenseIndexCache.after_load file_index k L = .err e (L.1, L.2.1) := by
  rcases L with ⟨st1, skipm1, r⟩
  dsimp only at h
  subst h
  rfl

/-- Claim C7: for every load (`DenseIndexCache::get_lazy_object`,
`InvertedIndexCache::get_data`, `NodeRegistry::get_object`) that reaches its
deserializer, a deserializer error is returned as-is with no entry inserted
for the key by the call itself and without marking the per-key mutex
complete; for `get_data` (whose deserializer is a pure function here) the
post-state is exactly the pre-state plus the still-incomplete loading-table
entry, so a subsequent call for the same key attempts the load again and a
working deserializer then succeeds. -/
theorem C7_deserializer_error_propagates (α β Data Sets : Type)
    (st : RegState α β) (dst : DenseState α) (ist : InvState Data Sets)
    (file_index : FileIndex) (max_loads : Nat) (skipm : List Nat) (is_level_0 : Bool)
    (file_offset data_file_idx : Nat) (e : BufIoError)
    (load_function : Nat → List Nat → RegState α β →
      RegState α β × List Nat × Except BufIoError (LazyItem α))
    (dense_deser : FileIndex → Nat → List Nat → DenseState α →
      DenseState α × List Nat × Except BufIoError α)
    (inv_deser : Nat → Nat → Except BufIoError Data)
    (hfast : NodeRegistry.fast_path st (NodeRegistry.combine_index file_index) = none)
    (hguard : ¬(max_loads = 0 ∨ NodeRegistry.combine_index file_index ∈ skipm))
    (hload : (load_function (max_loads - 1)
        (NodeRegistry.combine_index file_index :: skipm) st).2.2 = .error e)
    (hdreg : LRUCache.get dst.registry (DenseIndexCache.combine_index file_index is_level_0)
      = none)
    (hdguard : ¬(max_loads = 0 ∨ DenseIndexCache.combine_index file_index is_level_0 ∈ skipm))
    (hdflag : TSHashTable.flag dst.loading_items
        (DenseIndexCache.combine_index file_index is_level_0) = false)
    (hddeser : (dense_deser file_index (max_loads - 1)
        (DenseIndexCache.combine_index file_index is_level_0 :: skipm)
        { dst with loading_items := TSHashTable.get_or_create dst.loading_items (DenseIndexCache.combine_index file_index is_level_0) false }).2.2
      = .error e)
    (hireg : LRUCache.get ist.data_registry (InvertedIndexCache.combine_index file_offset 0)
      = none)
    (hiflag : TSHashTable.flag ist.loading_data (InvertedIndexCache.combine_index file_offset 0)
      = false)
    (hideser : inv_deser file_offset data_file_idx = .error e) :
    NodeRegistry.get_object st file_index load_function max_loads skipm
      = .err e ((load_function (max_loads - 1)
            (NodeRegistry.combine_index file_index :: skipm) st).1,
          (load_function (max_loads - 1)
            (NodeRegistry.combine_index file_index :: skipm) st).2.1) ∧
    DenseIndexCache.get_lazy_object dst file_index dense_deser max_loads skipm is_level_0
      = .err e ((dense_deser file_index (max_loads - 1)
            (DenseIndexCache.combine_index file_index is_level_0 :: skipm)
            { dst with loading_items := TSHashTable.get_or_create dst.loading_items (DenseIndexCache.combine_index file_index is_level_0) false }).1,
          (dense_deser file_index (max_loads - 1)
            (DenseIndexCache.combine_index file_index is_level_0 :: skipm)
            { dst with loading_items := TSHashTable.get_or_create dst.loading_items (DenseIndexCache.combine_index file_index is_level_0) false }).2.1) ∧
    InvertedIndexCache.get_data inv_deser ist file_offset data_file_idx
      = .err e { ist with loading_data := TSHashTable.get_or_create ist.loading_data (InvertedIndexCache.combine_index file_offset 0) false } ∧
    TSHashTable.flag
        (TSHashTable.get_or_create ist.loading_data
          (InvertedIndexCache.combine_index file_offset 0) false)
        (InvertedIndexCache.combine_index file_offset 0) = false ∧
    (∀ d2 : Data, InvertedIndexCache.get_data (fun _ _ => .ok d2)
        { ist with loading_data := TSHashTable.get_or_create ist.loading_data (InvertedIndexCache.combine_index file_offset 0) false }
        file_offset data_file_idx
      = .ok (.ready d2 file_offset 0 0)
          { ist with
            data_registry := LRUCache.insert ist.data_registry (InvertedIndexCache.combine_index file_offset 0) (.ready d2 file_offset 0 0),
            loading_data := TSHashTable.delete (TSHashTable.set_flag (TSHashTable.get_or_create ist.loading_data (InvertedIndexCache.combine_index file_offset 0) false) (InvertedIndexCache.combine_index file_offset 0)) (InvertedIndexCache.combine_index file_offset 0) }) := by
  have hflag2 : List.lookup (InvertedIndexCache.combine_index file_offset 0)
      (TSHashTable.get_or_create ist.loading_data
        (InvertedIndexCache.combine_index file_offset 0) false) = some false := by
    unfold TSHashTable.get_or_create
    cases hl : List.lookup (InvertedIndexCache.combine_index file_offset 0) ist.loading_data with
    | none => simp [hl, List.lookup]
    | some b =>
      have hb : b = false := by
        have h2 := hiflag
        unfold TSHashTable.flag at h2
        rw [hl] at h2
        simpa using h2
      subst hb
      simp [hl]
  refine ⟨?_, ?_, ?_, ?_, ?_⟩
  · rw [← NodeRegistry.after_load_err_state α β (NodeRegistry.combine_index file_index) _ e hload]
    simp [NodeRegistry.get_object, hfast, hguard]
  · rw [← DenseIndexCache.dense_after_load_err_state α file_index
      (DenseIndexCache.combine_index file_index is_level_0) _ e hddeser]
    simp [DenseIndexCache.get_lazy_object, hdreg, hdguard, hdflag]
  · simp [InvertedIndexCache.get_data, hireg, hiflag, hideser]
  · simp [TSHashTable.flag, hflag2]
  · intro d2
    simp [InvertedIndexCache.get_data, hireg, TSHashTable.flag, hflag2,
      TSHashTable.get_or_create_of_lookup _ _ _ _ hflag2]

/-- Witness for C7: on fresh caches with always-failing deserializers, all
three loads return the I/O error; the inverted cache is unchanged except for
the still-incomplete loading-table entry. -/
theorem C7_deserializer_error_propagates_witness :
    NodeRegistry.get_object (⟨[], []⟩ : RegState Nat Nat) (.valid 1 2 3)
        (fun _ s st2 => (st2, s, .error .ioFailure)) 1 []
      = .err .ioFailure (⟨[], []⟩, [NodeRegistry.combine_index (.valid 1 2 3)]) ∧
    DenseIndexCache.get_lazy_object (⟨[], []⟩ : DenseState Nat) (.valid 1 2 3)
        (fun _ _ s st2 => (st2, s, .error .ioFailure)) 1 [] false
      = .err .ioFailure
          (⟨[], [(DenseIndexCache.combine_index (.valid 1 2 3) false, false)]⟩,
            [DenseIndexCache.combine_index (.valid 1 2 3) false]) ∧
    InvertedIndexCache.get_data (fun _ _ => (.error .ioFailure : Except BufIoError Nat))
        (InvState.empty Nat Nat) 5 1
      = .err .ioFailure ⟨[], [], [(5, false)], []⟩ := by
  have h := C7_deserializer_error_propagates Nat Nat Nat Nat ⟨[], []⟩ ⟨[], []⟩
    (InvState.empty Nat Nat) (.valid 1 2 3) 1 [] false 5 1 .ioFailure
    (fun _ s st2 => (st2, s, .error .ioFailure))
    (fun _ _ s st2 => (st2, s, .error .ioFailure))
    (fun _ _ => .error .ioFailure)
    (by decide) (by decide) rfl (by decide) (by decide) (by decide) rfl (by decide) (by decide) rfl
  exact ⟨h.1, h.2.1, h.2.2.1⟩

/-- Claim C8, counterexample: with a wrong-variant entry cached under the
key (cuckoo filter containing it), `NodeRegistry::get_object` treats the
initial hit as a miss and loads, but `get_or_insert` then returns the
existing wrong-variant entry as the winner and
`T::from_cache_item(item).unwrap()` panics instead of returning normally. -/
theorem C8_counterexample_wrong_variant_winner_panics :
    NodeRegistry.get_object (⟨[1], [(1, .variantB (.ready 5 0 0))]⟩ : RegState Nat Nat)
        (.valid 0 1 0) (fun _ s st => (st, s, .ok (.ready 9 0 0))) 1 []
      = .panic (⟨[1], [(1, .variantB (.ready 5 0 0))]⟩, [1]) := by
  decide

/-- Claim C8, amended: a wrong-variant cache hit returns `None` at the typed
wrapper level (`from_cache_item`), so the filtered fast-path lookup treats
it as a miss and the call proceeds to load; but when the wrong-variant entry
is returned as the winner of `get_or_insert`, the call panics on
`from_cache_item(item).unwrap()` rather than returning normally. -/
theorem C8_wrong_variant_hit_treated_as_miss_then_panics (α β : Type) (st : RegState α β)
    (file_index : FileIndex) (max_loads : Nat) (skipm : List Nat) (y y2 : LazyItem β)
    (load_function : Nat → List Nat → RegState α β →
      RegState α β × List Nat × Except BufIoError (LazyItem α))
    (item : LazyItem α)
    (hhit : LRUCache.get st.registry (NodeRegistry.combine_index file_index)
      = some (.variantB y))
    (hguard : ¬(max_loads = 0 ∨ NodeRegistry.combine_index file_index ∈ skipm))
    (hok : (load_function (max_loads - 1)
        (NodeRegistry.combine_index file_index :: skipm) st).2.2 = .ok item)
    (hwin : LRUCache.get
        (load_function (max_loads - 1)
          (NodeRegistry.combine_index file_index :: skipm) st).1.registry
        (NodeRegistry.combine_index file_index) = some (.variantB y2)) :
    CacheItem.from_cache_itemA (CacheItem.variantB y : CacheItem α β) = none ∧
    NodeRegistry.fast_path st (NodeRegistry.combine_index file_index) = none ∧
    NodeRegistry.get_object st file_index load_function max_loads skipm
      = .panic ((load_function (max_loads - 1)
            (NodeRegistry.combine_index file_index :: skipm) st).1,
          (load_function (max_loads - 1)
            (NodeRegistry.combine_index file_index :: skipm) st).2.1) := by
  have hfast : NodeRegistry.fast_path st (NodeRegistry.combine_index file_index) = none := by
    unfold NodeRegistry.fast_path
    by_cases hc : NodeRegistry.combine_index file_index ∈ st.cuckoo_filter
    · simp [hc, hhit, CacheItem.from_cache_itemA]
    · simp [hc]
  refine ⟨rfl, hfast, ?_⟩
  rcases hL : load_function (max_loads - 1)
      (NodeRegistry.combine_index file_index :: skipm) st with ⟨st1, skipm1, r⟩
  rw [hL] at hok hwin
  dsimp only at hok hwin
  subst hok
  simp [NodeRegistry.get_object, hfast, hguard, hL, NodeRegistry.after_load, hwin,
    CacheItem.from_cache_itemA]

/-- Witness for C8: the concrete wrong-variant scenario: fast path misses,
the loader runs, and the call ends in a panic. -/
theorem C8_wrong_variant_hit_treated_as_miss_then_panics_witness :
    CacheItem.from_cache_itemA (CacheItem.variantB (.ready 5 0 0) : CacheItem Nat Nat) = none ∧
    NodeRegistry.fast_path (⟨[1], [(1, .variantB (.ready 5 0 0))]⟩ : RegState Nat Nat)
        (NodeRegistry.combine_index (.valid 0 1 0)) = none ∧
    NodeRegistry.get_object (⟨[1], [(1, .variantB (.ready 5 0 0))]⟩ : RegState Nat Nat)
        (.valid 0 1 0) (fun _ s st => (st, s, .ok (.ready 9 0 0))) 1 []
      = .panic (⟨[1], [(1, .variantB (.ready 5 0 0))]⟩,
          [NodeRegistry.combine_index (.valid 0 1 0)]) := by
  exact C8_wrong_variant_hit_treated_as_miss_then_panics Nat Nat
    ⟨[1], [(1, .variantB (.ready 5 0 0))]⟩ (.valid 0 1 0) 1 []
    (.ready 5 0 0) (.ready 5 0 0)
    (fun _ s st => (st, s, .ok (.ready 9 0 0))) (.ready 9 0 0)
    (by decide) (by decide) rfl (by decide)

/-- Claim C9: evaluation of the code at the failing input. The `Int` variant
of `IdentityMapKey::deserialize` returns `Ok` without reaching the
`close_cursor` call, leaking the cursor it opened (opened 1, closed 0),
while the `String` variant and the collection deserializers do close their
cursor on success (opened 1, closed 1). -/
theorem C9_int_key_path_leaks_cursor :
    IdentityMapKey.deserialize (writeU32 (fun _ => 0) 0 5) (.valid 0 0 0)
      = ⟨.ok (.int 5), 1, 0⟩ ∧
    IdentityMapKey.deserialize (writeU32 (fun _ => 0) 0 MSB) (.valid 0 0 0)
      = ⟨.ok (.str []), 1, 1⟩ ∧
    LazyItemVec.deserialize 1
        ⟨fun f p _ => (f, p, 0), fun _ _ _ _ => (.ok 0 : Except BufIoError Nat),
          fun _ => 0, fun _ => 0⟩
        (fun _ => 255) (.valid 0 0 0) 2
      = ⟨.ok [], 1, 1⟩ ∧
    LazyItemMap.deserialize 1
        ⟨fun f p _ => (f, p, 0), fun _ _ _ _ => (.ok 0 : Except BufIoError Nat),
          fun _ => 0, fun _ => 0⟩
        (fun _ => 255) (.valid 0 0 0) 2
      = ⟨.ok [], 1, 1⟩ := by
  refine ⟨by decide, by decide, by decide, by decide⟩

/-- Agreement of two files on the half-open byte range `[lo, hi)`. -/
def Agree (g f : Nat → Nat) (lo hi : Nat) : Prop :=
  ∀ q, lo ≤ q → q < hi → g q = f q

theorem Agree.mono {g f : Nat → Nat} {lo hi lo2 hi2 : Nat}
    (h : Agree g f lo hi) (h1 : lo ≤ lo2) (h2 : hi2 ≤ hi) : Agree g f lo2 hi2 :=
  fun q hq1 hq2 => h q (le_trans h1 hq1) (lt_of_lt_of_le hq2 h2)

theorem writeByte_same (f : Nat → Nat) (p v : Nat) : writeByte f p v p = v % 2 ^ 8 := by
  simp [writeByte]

theorem writeByte_other (f : Nat → Nat) (p v q : Nat) (h : q ≠ p) : writeByte f p v q = f q := by
  simp [writeByte, h]

theorem writeU16_frame (f : Nat → Nat) (p v q : Nat) (h : q < p ∨ p + 2 ≤ q) :
    writeU16 f p v q = f q := by
  unfold writeU16
  rw [writeByte_other _ _ _ _ (by omega), writeByte_other _ _ _ _ (by omega)]

theorem writeU32_frame (f : Nat → Nat) (p v q : Nat) (h : q < p ∨ p + 4 ≤ q) :
    writeU32 f p v q = f q := by
  unfold writeU32
  rw [writeByte_other _ _ _ _ (by omega), writeByte_other _ _ _ _ (by omega),
    writeByte_other _ _ _ _ (by omega), writeByte_other _ _ _ _ (by omega)]

theorem writeBytes_frame (bs : List Nat) : ∀ (f : Nat → Nat) (p q : Nat),
    q < p ∨ p + bs.length ≤ q → writeBytes f p bs q = f q := by
  induction bs with
  | nil => intro f p q h; rfl
  | cons b bs ih =>
    intro f p q h
    show writeBytes (writeByte f p b) (p + 1) bs q = f q
    rw [ih _ _ _ (by simp at h ⊢; omega), writeByte_other _ _ _ _ (by simp at h; omega)]

theorem readU16_congr (g f : Nat → Nat) (p : Nat) (h : Agree g f p (p + 2)) :
    readU16 g p = readU16 f p := by
  unfold readU16
  rw [h p (by omega) (by omega), h (p + 1) (by omega) (by omega)]

theorem readU32_congr (g f : Nat → Nat) (p : Nat) (h : Agree g f p (p + 4)) :
    readU32 g p = readU32 f p := by
  unfold readU32
  rw [h p (by omega) (by omega), h (p + 1) (by omega) (by omega),
    h (p + 2) (by omega) (by omega), h (p + 3) (by omega) (by omega)]

theorem writeU32_byte (f : Nat → Nat) (p v : Nat) :
    writeU32 f p v p = v % 2 ^ 8 ∧
    writeU32 f p v (p + 1) = v / 2 ^ 8 % 2 ^ 8 ∧
    writeU32 f p v (p + 2) = v / 2 ^ 16 % 2 ^ 8 ∧
    writeU32 f p v (p + 3) = v / 2 ^ 24 % 2 ^ 8 := by
  unfold writeU32
  refine ⟨?_, ?_, ?_, ?_⟩
  · rw [writeByte_other _ _ _ _ (by omega), writeByte_other _ _ _ _ (by omega),
      writeByte_other _ _ _ _ (by omega), writeByte_same]
  · rw [writeByte_other _ _ _ _ (by omega), writeByte_other _ _ _ _ (by omega),
      writeByte_same]
  · rw [writeByte_other _ _ _ _ (by omega), writeByte_same]
  · rw [writeByte_same]

theorem readU32_writeU32 (f : Nat → Nat) (p v : Nat) :
    readU32 (writeU32 f p v) p = v % 2 ^ 32 := by
  obtain ⟨h0, h1, h2, h3⟩ := writeU32_byte f p v
  unfold readU32
  rw [h0, h1, h2, h3]
  omega

theorem writeU16_byte (f : Nat → Nat) (p v : Nat) :
    writeU16 f p v p = v % 2 ^ 8 ∧ writeU16 f p v (p + 1) = v / 2 ^ 8 % 2 ^ 8 := by
  unfold writeU16
  refine ⟨?_, ?_⟩
  · rw [writeByte_other _ _ _ _ (by omega), writeByte_same]
  · rw [writeByte_same]

theorem readU16_writeU16 (f : Nat → Nat) (p v : Nat) :
    readU16 (writeU16 f p v) p = v % 2 ^ 16 := by
  obtain ⟨h0, h1⟩ := writeU16_byte f p v
  unfold readU16
  rw [h0, h1]
  omega

theorem readU32_of_ff (f : Nat → Nat) (p : Nat)
    (h : ∀ q, p ≤ q → q < p + 4 → f q = 255) : readU32 f p = MAX32 := by
  unfold readU32
  rw [h p (by omega) (by omega), h (p + 1) (by omega) (by omega),
    h (p + 2) (by omega) (by omega), h (p + 3) (by omega) (by omega)]
  decide

theorem writeU32_max_inside (f : Nat → Nat) (p q : Nat) (h1 : p ≤ q) (h2 : q < p + 4) :
    writeU32 f p MAX32 q = 255 := by
  obtain ⟨h0, hb1, hb2, hb3⟩ := writeU32_byte f p MAX32
  have hq : q = p ∨ q = p + 1 ∨ q = p + 2 ∨ q = p + 3 := by omega
  rcases hq with h | h | h | h <;> subst h
  · rw [h0]; decide
  · rw [hb1]; decide
  · rw [hb2]; decide
  · rw [hb3]; decide

theorem writeU16_max_inside (f : Nat → Nat) (p q : Nat) (h1 : p ≤ q) (h2 : q < p + 2) :
    writeU16 f p (2 ^ 16 - 1) q = 255 := by
  obtain ⟨h0, hb1⟩ := writeU16_byte f p (2 ^ 16 - 1)
  have hq : q = p ∨ q = p + 1 := by omega
  rcases hq with h | h <;> subst h
  · rw [h0]; decide
  · rw [hb1]; decide

theorem writeEmptySlotVec_frame (f : Nat → Nat) (pos q : Nat) (h : q < pos ∨ pos + 10 ≤ q) :
    writeEmptySlotVec f pos q = f q := by
  unfold writeEmptySlotVec
  rw [writeU32_frame _ _ _ _ (by omega), writeU16_frame _ _ _ _ (by omega),
    writeU32_frame _ _ _ _ (by omega)]

theorem writeEmptySlotVec_inside (f : Nat → Nat) (pos q : Nat) (h1 : pos ≤ q)
    (h2 : q < pos + 10) : writeEmptySlotVec f pos q = 255 := by
  unfold writeEmptySlotVec
  by_cases hc1 : pos + 6 ≤ q
  · exact writeU32_max_inside _ _ _ hc1 (by omega)
  · rw [writeU32_frame _ _ _ _ (by omega)]
    by_cases hc2 : pos + 4 ≤ q
    · exact writeU16_max_inside _ _ _ hc2 (by omega)
    · rw [writeU16_frame _ _ _ _ (by omega)]
      exact writeU32_max_inside _ _ _ h1 (by omega)

theorem writePlaceholdersVec_spec : ∀ (n : Nat) (f : Nat → Nat) (pos : Nat),
    (writePlaceholdersVec n f pos).2 = pos + n * 10 ∧
    (∀ q, q < pos ∨ pos + n * 10 ≤ q → (writePlaceholdersVec n f pos).1 q = f q) ∧
    (∀ q, pos ≤ q → q < pos + n * 10 → (writePlaceholdersVec n f pos).1 q = 255) := by
  intro n
  induction n with
  | zero =>
    intro f pos
    refine ⟨by simp [writePlaceholdersVec], fun q _ => rfl, fun q h1 h2 => by omega⟩
  | succ n ih =>
    intro f pos
    have hstep : writePlaceholdersVec (n + 1) f pos
        = writePlaceholdersVec n (writeEmptySlotVec f pos) (pos + 10) := rfl
    rw [hstep]
    obtain ⟨hlen, hframe, hin⟩ := ih (writeEmptySlotVec f pos) (pos + 10)
    refine ⟨by rw [hlen]; omega, ?_, ?_⟩
    · intro q hq
      rw [hframe q (by omega), writeEmptySlotVec_frame f pos q (by omega)]
    · intro q h1 h2
      by_cases hc : q < pos + 10
      · rw [hframe q (by omega)]
        exact writeEmptySlotVec_inside f pos q h1 hc
      · exact hin q (by omega) (by omega)

/-- Well-behaved chunk item: `serialize` only moves the cursor forward,
writes only within `[pos, pos')`, returns an offset inside the written span,
keeps the version metadata within its wire width (`u16`/`u32`), and
`LazyItem::deserialize` at the returned offset and that metadata recovers
the item in any file agreeing with the post-write file on the written span.
This is the formal reading of the claim's "items whose elements
individually round-trip". -/
structure CodecOk (c : ItemCodec It) : Prop where
  mono : ∀ f p x, p ≤ (c.ser f p x).2.1
  confined : ∀ f p x q, q < p ∨ (c.ser f p x).2.1 ≤ q → (c.ser f p x).1 q = f q
  off_ge : ∀ f p x, p ≤ (c.ser f p x).2.2
  off_le : ∀ f p x, (c.ser f p x).2.2 ≤ (c.ser f p x).2.1
  vnum_lt : ∀ x, c.vnum x < 2 ^ 16
  vid_lt : ∀ x, c.vid x < 2 ^ 32
  round : ∀ f p x g, Agree g (c.ser f p x).1 p (c.ser f p x).2.1 →
    c.deser g (c.ser f p x).2.2 (c.vnum x) (c.vid x) = .ok x

theorem deserializeSlotsVec_ff (c : ItemCodec It) (g : Nat → Nat) (ps : Nat) :
    ∀ (m i : Nat), (∀ i2, i ≤ i2 → i2 < i + m → readU32 g (ps + i2 * 10) = MAX32) →
      deserializeSlotsVec c g ps m i = .ok [] := by
  intro m
  induction m with
  | zero => intro i _; rfl
  | succ n ih =>
    intro i h
    simp only [deserializeSlotsVec]
    rw [h i (le_refl i) (by omega)]
    simp only [if_pos]
    exact ih (i + 1) (fun i2 h1 h2 => h i2 (by omega) (by omega))

theorem deserializeSlotsVec_cons_live (c : ItemCodec It) (g : Nat → Nat) (ps n i : Nat)
    (off vnum vid : Nat) (hoff : readU32 g (ps + i * 10) = off)
    (hvnum : readU16 g (ps + i * 10 + 4) = vnum) (hvid : readU32 g (ps + i * 10 + 6) = vid)
    (hne : off ≠ MAX32) :
    deserializeSlotsVec c g ps (n + 1) i =
      match c.deser g off vnum vid with
      | .error e => .error e
      | .ok x =>
        match deserializeSlotsVec c g ps n (i + 1) with
        | .error e => .error e
        | .ok rest2 => .ok (x :: rest2) := by
  simp only [deserializeSlotsVec]
  rw [hoff, hvnum, hvid]
  simp [hne]

theorem serializeItemsVec_spec (c : ItemCodec It) (hc : CodecOk c) :
    ∀ (chunk : List It) (j : Nat) (f : Nat → Nat) (pos ps : Nat),
      ps + (j + chunk.length) * 10 ≤ pos →
      pos ≤ (serializeItemsVec c ps chunk j f pos).2 ∧
      (∀ q, (q < ps + j * 10 ∨ (ps + (j + chunk.length) * 10 ≤ q ∧ q < pos) ∨
          (serializeItemsVec c ps chunk j f pos).2 ≤ q) →
        (serializeItemsVec c ps chunk j f pos).1 q = f q) ∧
      (∀ g, (serializeItemsVec c ps chunk j f pos).2 < MAX32 →
        Agree g (serializeItemsVec c ps chunk j f pos).1 (ps + j * 10)
          (ps + (j + chunk.length) * 10) →
        Agree g (serializeItemsVec c ps chunk j f pos).1 pos
          (serializeItemsVec c ps chunk j f pos).2 →
        ∀ m, deserializeSlotsVec c g ps m (j + chunk.length) = .ok [] →
          deserializeSlotsVec c g ps (chunk.length + m) j = .ok chunk) := by
  intro chunk
  induction chunk with
  | nil =>
    intro j f pos ps hsep
    refine ⟨le_refl pos, fun q _ => rfl, ?_⟩
    intro g _ _ _ m hm
    simpa using hm
  | cons x rest ih =>
    intro j f pos ps hsep
    simp only [List.length_cons] at hsep ⊢
    have hstep : serializeItemsVec c ps (x :: rest) j f pos
        = serializeItemsVec c ps rest (j + 1)
            (writeU32 (writeU16 (writeU32 (c.ser f pos x).1 (ps + j * 10) (c.ser f pos x).2.2)
              (ps + j * 10 + 4) (c.vnum x)) (ps + j * 10 + 6) (c.vid x))
            (c.ser f pos x).2.1 := rfl
    rw [hstep]
    have hmono := hc.mono f pos x
    have hoffge := hc.off_ge f pos x
    have hoffle := hc.off_le f pos x
    have hvnum := hc.vnum_lt x
    have hvid := hc.vid_lt x
    -- the patched file after serializing `x` and filling slot `j`
    set F4 : Nat → Nat :=
      writeU32 (writeU16 (writeU32 (c.ser f pos x).1 (ps + j * 10) (c.ser f pos x).2.2)
        (ps + j * 10 + 4) (c.vnum x)) (ps + j * 10 + 6) (c.vid x) with hF4
    have hsep2 : ps + (j + 1 + rest.length) * 10 ≤ (c.ser f pos x).2.1 := by omega
    obtain ⟨ihmono, ihframe, ihdecode⟩ := ih (j + 1) F4 (c.ser f pos x).2.1 ps hsep2
    -- the patch region [ps + j * 10, ps + j * 10 + 10) is below the item stream
    have hppos : ps + j * 10 + 10 ≤ pos := by omega
    -- F4 agrees with the freshly serialized file outside the slot
    have hF4out : ∀ q, ps + j * 10 + 10 ≤ q ∨ q < ps + j * 10 → F4 q = (c.ser f pos x).1 q := by
      intro q hq
      rw [hF4, writeU32_frame _ _ _ _ (by omega), writeU16_frame _ _ _ _ (by omega),
        writeU32_frame _ _ _ _ (by omega)]
    -- F4 agrees with the original file below the slot and outside the written span
    have hF4f : ∀ q, (q < ps + j * 10 ∨ (ps + j * 10 + 10 ≤ q ∧ q < pos) ∨
        (c.ser f pos x).2.1 ≤ q) → F4 q = f q := by
      intro q hq
      rw [hF4out q (by omega), hc.confined f pos x q (by omega)]
    refine ⟨le_trans hmono ihmono, ?_, ?_⟩
    · -- frame of the whole loop
      intro q hq
      rw [ihframe q (by omega), hF4f q (by omega)]
    · -- decoding the slots written by the loop
      intro g hbound hAslots hAitems m htrail
      have hoffmax : (c.ser f pos x).2.2 < 2 ^ 32 - 1 := by
        have h2 : (c.ser f pos x).2.2 < MAX32 :=
          lt_of_le_of_lt (le_trans hoffle ihmono) hbound
        simpa [MAX32] using h2
      have hne : (c.ser f pos x).2.2 ≠ MAX32 := by
        simp only [MAX32]
        omega
      -- bytes of slot j survive the recursion and the later patches
      have hslotj : ∀ q, ps + j * 10 ≤ q → q < ps + j * 10 + 10 →
          g q = F4 q := by
        intro q h1 h2
        rw [hAslots q (by omega) (by omega), ihframe q (by omega)]
      -- the slot fields read back as written
      have hread_off : readU32 g (ps + j * 10) = (c.ser f pos x).2.2 := by
        have h1 : readU32 g (ps + j * 10)
            = readU32 (writeU32 (c.ser f pos x).1 (ps + j * 10) (c.ser f pos x).2.2)
                (ps + j * 10) := by
          apply readU32_congr
          intro q h1 h2
          rw [hslotj q (by omega) (by omega), hF4,
            writeU32_frame _ _ _ _ (by omega), writeU16_frame _ _ _ _ (by omega)]
        rw [h1, readU32_writeU32]
        omega
      have hread_vnum : readU16 g (ps + j * 10 + 4) = c.vnum x := by
        have h1 : readU16 g (ps + j * 10 + 4)
            = readU16 (writeU16 (writeU32 (c.ser f pos x).1 (ps + j * 10) (c.ser f pos x).2.2)
                (ps + j * 10 + 4) (c.vnum x)) (ps + j * 10 + 4) := by
          apply readU16_congr
          intro q h1 h2
          rw [hslotj q (by omega) (by omega), hF4, writeU32_frame _ _ _ _ (by omega)]
        rw [h1, readU16_writeU16]
        omega
      have hread_vid : readU32 g (ps + j * 10 + 6) = c.vid x := by
        have h1 : readU32 g (ps + j * 10 + 6)
            = readU32 F4 (ps + j * 10 + 6) := by
          apply readU32_congr
          intro q h1 h2
          exact hslotj q (by omega) (by omega)
        rw [h1, hF4, readU32_writeU32]
        omega
      -- the item itself round-trips in `g`
      have hitem : c.deser g (c.ser f pos x).2.2 (c.vnum x) (c.vid x) = .ok x := by
        apply hc.round f pos x g
        intro q h1 h2
        rw [hAitems q (by omega) (by omega), ihframe q (by omega), hF4out q (by omega)]
      -- the remaining slots decode to `rest`
      have htail : deserializeSlotsVec c g ps (rest.length + m) (j + 1) = .ok rest := by
        apply ihdecode g hbound
        · exact Agree.mono hAslots (by omega) (by omega)
        · exact Agree.mono hAitems hmono (le_refl _)
        · have hidx : j + 1 + rest.length = j + (rest.length + 1) := by omega
          rw [hidx]
          exact htrail
      have hn : rest.length + 1 + m = rest.length + m + 1 := by omega
      rw [hn, deserializeSlotsVec_cons_live c g ps (rest.length + m) j
        (c.ser f pos x).2.2 (c.vnum x) (c.vid x) hread_off hread_vnum hread_vid
        hne, hitem, htail]

theorem asU32_le (n : Nat) : asU32 n ≤ n := Nat.mod_le n (2 ^ 32)

theorem asU32_of_lt (n : Nat) (h : n < 2 ^ 32) : asU32 n = n := Nat.mod_eq_of_lt h

theorem serializeChunksVec_mono (CS : Nat) (c : ItemCodec It) (hc : CodecOk c) :
    ∀ (fuel : Nat) (xs : List It) (f : Nat → Nat) (pos : Nat),
      pos ≤ (serializeChunksVec CS c fuel xs f pos).2 := by
  intro fuel
  induction fuel with
  | zero => intro xs f pos; exact le_refl pos
  | succ fuel ih =>
    intro xs f pos
    simp only [serializeChunksVec]
    have h1 := (writePlaceholdersVec_spec CS f pos).1
    have hlen : (List.take CS xs).length ≤ CS := by
      simp [List.length_take]
    have hps : asU32 pos ≤ pos := asU32_le pos
    have hsep : asU32 pos + (0 + (List.take CS xs).length) * 10
        ≤ (writePlaceholdersVec CS f pos).2 + 4 := by omega
    have h2 := (serializeItemsVec_spec c hc (List.take CS xs) 0
      (writeU32 (writePlaceholdersVec CS f pos).1 (writePlaceholdersVec CS f pos).2 MAX32)
      ((writePlaceholdersVec CS f pos).2 + 4) (asU32 pos) hsep).1
    split
    · omega
    · have h3 := ih (List.drop CS xs)
        (writeU32 (serializeItemsVec c (asU32 pos) (List.take CS xs) 0
          (writeU32 (writePlaceholdersVec CS f pos).1 (writePlaceholdersVec CS f pos).2 MAX32)
          ((writePlaceholdersVec CS f pos).2 + 4)).1
          (asU32 (writePlaceholdersVec CS f pos).2)
          (asU32 (serializeItemsVec c (asU32 pos) (List.take CS xs) 0
            (writeU32 (writePlaceholdersVec CS f pos).1 (writePlaceholdersVec CS f pos).2 MAX32)
            ((writePlaceholdersVec CS f pos).2 + 4)).2))
        (serializeItemsVec c (asU32 pos) (List.take CS xs) 0
          (writeU32 (writePlaceholdersVec CS f pos).1 (writePlaceholdersVec CS f pos).2 MAX32)
          ((writePlaceholdersVec CS f pos).2 + 4)).2
      omega

theorem serializeChunksVec_confined (CS : Nat) (c : ItemCodec It) (hc : CodecOk c) :
    ∀ (fuel : Nat) (xs : List It) (f : Nat → Nat) (pos : Nat),
      (serializeChunksVec CS c fuel xs f pos).2 < 2 ^ 32 →
      ∀ q, q < pos → (serializeChunksVec CS c fuel xs f pos).1 q = f q := by
  intro fuel
  induction fuel with
  | zero => intro xs f pos _ q _; rfl
  | succ fuel ih =>
    intro xs f pos hb q hq
    simp only [serializeChunksVec] at hb ⊢
    have hpl2 := (writePlaceholdersVec_spec CS f pos).1
    have hplframe := (writePlaceholdersVec_spec CS f pos).2.1
    have hlen : (List.take CS xs).length ≤ CS := by simp [List.length_take]
    have hps : asU32 pos ≤ pos := asU32_le pos
    have hsep : asU32 pos + (0 + (List.take CS xs).length) * 10
        ≤ (writePlaceholdersVec CS f pos).2 + 4 := by omega
    obtain ⟨himono, hiframe, _⟩ := serializeItemsVec_spec c hc (List.take CS xs) 0
      (writeU32 (writePlaceholdersVec CS f pos).1 (writePlaceholdersVec CS f pos).2 MAX32)
      ((writePlaceholdersVec CS f pos).2 + 4) (asU32 pos) hsep
    by_cases hrest : (List.drop CS xs).isEmpty
    · rw [if_pos hrest] at hb ⊢
      dsimp only at hb ⊢
      have hposlt : pos < 2 ^ 32 := by omega
      have h32a : asU32 pos = pos := asU32_of_lt pos hposlt
      have h32b : asU32 (writePlaceholdersVec CS f pos).2 = (writePlaceholdersVec CS f pos).2 :=
        asU32_of_lt _ (by omega)
      rw [writeU32_frame _ _ _ _ (by omega), hiframe q (by omega),
        writeU32_frame _ _ _ _ (by omega), hplframe q (by omega)]
    · rw [if_neg hrest] at hb ⊢
      have hmono2 := serializeChunksVec_mono CS c hc fuel (List.drop CS xs)
        (writeU32 (serializeItemsVec c (asU32 pos) (List.take CS xs) 0
            (writeU32 (writePlaceholdersVec CS f pos).1 (writePlaceholdersVec CS f pos).2 MAX32)
            ((writePlaceholdersVec CS f pos).2 + 4)).1
          (asU32 (writePlaceholdersVec CS f pos).2)
          (asU32 (serializeItemsVec c (asU32 pos) (List.take CS xs) 0
            (writeU32 (writePlaceholdersVec CS f pos).1 (writePlaceholdersVec CS f pos).2 MAX32)
            ((writePlaceholdersVec CS f pos).2 + 4)).2))
        (serializeItemsVec c (asU32 pos) (List.take CS xs) 0
          (writeU32 (writePlaceholdersVec CS f pos).1 (writePlaceholdersVec CS f pos).2 MAX32)
          ((writePlaceholdersVec CS f pos).2 + 4)).2
      have hposlt : pos < 2 ^ 32 := by omega
      have h32a : asU32 pos = pos := asU32_of_lt pos hposlt
      have h32b : asU32 (writePlaceholdersVec CS f pos).2 = (writePlaceholdersVec CS f pos).2 :=
        asU32_of_lt _ (by omega)
      rw [ih (List.drop CS xs) _ _ hb q (by omega),
        writeU32_frame _ _ _ _ (by omega), hiframe q (by omega),
        writeU32_frame _ _ _ _ (by omega), hplframe q (by omega)]

theorem deserializeChunksVec_step (CS : Nat) (c : ItemCodec It) (g : Nat → Nat)
    (d pos : Nat) (items : List It) (next : Nat)
    (hslots : deserializeSlotsVec c g pos CS 0 = .ok items)
    (hnext : readU32 g (pos + CS * 10) = next) :
    deserializeChunksVec CS c g (d + 1) pos =
      (if next = MAX32 then .ok items
       else
        match deserializeChunksVec CS c g d next with
        | .error e => .error e
        | .ok more => .ok (items ++ more)) := by
  simp only [deserializeChunksVec]
  rw [hslots, hnext]

theorem serializeChunksVec_decode (CS : Nat) (c : ItemCodec It) (hc : CodecOk c)
    (hCS : 0 < CS) :
    ∀ (fuel : Nat) (xs : List It) (f : Nat → Nat) (pos : Nat),
      xs ≠ [] → xs.length ≤ fuel →
      (serializeChunksVec CS c fuel xs f pos).2 < 2 ^ 32 - 1 →
      ∀ g, Agree g (serializeChunksVec CS c fuel xs f pos).1 pos
          (serializeChunksVec CS c fuel xs f pos).2 →
      ∀ dfuel, xs.length ≤ dfuel →
        deserializeChunksVec CS c g dfuel pos = .ok xs := by
  intro fuel
  induction fuel with
  | zero =>
    intro xs f pos hne hlenf
    cases xs with
    | nil => exact absurd rfl hne
    | cons a as => simp at hlenf
  | succ fuel ih =>
    intro xs f pos hne hlenf hb g hA dfuel hdfuel
    obtain ⟨d, rfl⟩ : ∃ d, dfuel = d + 1 := by
      cases dfuel with
      | zero =>
        cases xs with
        | nil => exact absurd rfl hne
        | cons a as => simp at hdfuel
      | succ d => exact ⟨d, rfl⟩
    simp only [serializeChunksVec] at hb hA
    have hpl2 := (writePlaceholdersVec_spec CS f pos).1
    have hplframe := (writePlaceholdersVec_spec CS f pos).2.1
    have hplin := (writePlaceholdersVec_spec CS f pos).2.2
    have hlen : (List.take CS xs).length ≤ CS := by simp [List.length_take]
    have hlenpos : 0 < xs.length := List.length_pos.mpr hne
    have hps : asU32 pos ≤ pos := asU32_le pos
    have hsep : asU32 pos + (0 + (List.take CS xs).length) * 10
        ≤ (writePlaceholdersVec CS f pos).2 + 4 := by omega
    obtain ⟨himono, hiframe, hidecode⟩ := serializeItemsVec_spec c hc (List.take CS xs) 0
      (writeU32 (writePlaceholdersVec CS f pos).1 (writePlaceholdersVec CS f pos).2 MAX32) ((writePlaceholdersVec CS f pos).2 + 4) (asU32 pos) hsep
    by_cases hrest : (List.drop CS xs).isEmpty
    · -- final chunk: the next-chunk link is patched with u32::MAX
      rw [if_pos hrest] at hb hA
      dsimp only at hb hA
      have hposlt : pos < 2 ^ 32 := by omega
      have h32a : asU32 pos = pos := asU32_of_lt pos hposlt
      have h32b : asU32 (writePlaceholdersVec CS f pos).2 = (writePlaceholdersVec CS f pos).2 := asU32_of_lt _ (by omega)
      have hdropnil : List.drop CS xs = [] := by simpa using hrest
      have hxs : List.take CS xs = xs := by
        have h2 := List.take_append_drop CS xs
        rwa [hdropnil, List.append_nil] at h2
      -- unused trailing slots read back as the empty sentinel
      have htrail : deserializeSlotsVec c g (asU32 pos)
          (CS - (List.take CS xs).length) (0 + (List.take CS xs).length) = .ok [] := by
        apply deserializeSlotsVec_ff
        intro i2 h1 h2
        apply readU32_of_ff
        intro q hq1 hq2
        rw [hA q (by omega) (by omega), writeU32_frame _ _ _ _ (by omega),
          hiframe q (by omega), writeU32_frame _ _ _ _ (by omega)]
        exact hplin q (by omega) (by omega)
      have hres := hidecode g (by have hm : MAX32 = 2 ^ 32 - 1 := rfl; omega)
        (by
          intro q hq1 hq2
          rw [hA q (by omega) (by omega)]
          exact writeU32_frame _ _ _ _ (by omega))
        (by
          intro q hq1 hq2
          rw [hA q (by omega) (by omega)]
          exact writeU32_frame _ _ _ _ (by omega))
        (CS - (List.take CS xs).length) htrail
      rw [h32a] at hres
      have hcnt : (List.take CS xs).length + (CS - (List.take CS xs).length) = CS := by omega
      rw [hcnt] at hres
      have hlink : readU32 g (pos + CS * 10) = MAX32 := by
        have h1 : readU32 g (pos + CS * 10)
            = readU32 (writeU32 (serializeItemsVec c (asU32 pos) (List.take CS xs) 0 (writeU32 (writePlaceholdersVec CS f pos).1 (writePlaceholdersVec CS f pos).2 MAX32) ((writePlaceholdersVec CS f pos).2 + 4)).1 (asU32 (writePlaceholdersVec CS f pos).2) MAX32) (pos + CS * 10) := by
          apply readU32_congr
          intro q hq1 hq2
          exact hA q (by omega) (by omega)
        have h2 : pos + CS * 10 = asU32 (writePlaceholdersVec CS f pos).2 := by omega
        rw [h1, h2, readU32_writeU32]
        decide
      rw [deserializeChunksVec_step CS c g d pos (List.take CS xs) MAX32 hres hlink,
        if_pos rfl, hxs]
    · -- non-final chunk: the link is patched with the next chunk's start
      rw [if_neg hrest] at hb hA
      have hdropne : List.drop CS xs ≠ [] := by
        intro h2
        exact hrest (by simp [h2])
      have hCSlt : CS < xs.length := by
        have h2 : 0 < (List.drop CS xs).length := List.length_pos.mpr hdropne
        simp only [List.length_drop] at h2
        omega
      have hreclow := serializeChunksVec_mono CS c hc fuel (List.drop CS xs) (writeU32 (serializeItemsVec c (asU32 pos) (List.take CS xs) 0 (writeU32 (writePlaceholdersVec CS f pos).1 (writePlaceholdersVec CS f pos).2 MAX32) ((writePlaceholdersVec CS f pos).2 + 4)).1 (asU32 (writePlaceholdersVec CS f pos).2) (asU32 (serializeItemsVec c (asU32 pos) (List.take CS xs) 0 (writeU32 (writePlaceholdersVec CS f pos).1 (writePlaceholdersVec CS f pos).2 MAX32) ((writePlaceholdersVec CS f pos).2 + 4)).2)) (serializeItemsVec c (asU32 pos) (List.take CS xs) 0 (writeU32 (writePlaceholdersVec CS f pos).1 (writePlaceholdersVec CS f pos).2 MAX32) ((writePlaceholdersVec CS f pos).2 + 4)).2
      have hposlt : pos < 2 ^ 32 := by omega
      have h32a : asU32 pos = pos := asU32_of_lt pos hposlt
      have h32b : asU32 (writePlaceholdersVec CS f pos).2 = (writePlaceholdersVec CS f pos).2 := asU32_of_lt _ (by omega)
      have h32c : asU32 (serializeItemsVec c (asU32 pos) (List.take CS xs) 0 (writeU32 (writePlaceholdersVec CS f pos).1 (writePlaceholdersVec CS f pos).2 MAX32) ((writePlaceholdersVec CS f pos).2 + 4)).2 = (serializeItemsVec c (asU32 pos) (List.take CS xs) 0 (writeU32 (writePlaceholdersVec CS f pos).1 (writePlaceholdersVec CS f pos).2 MAX32) ((writePlaceholdersVec CS f pos).2 + 4)).2 := asU32_of_lt _ (by omega)
      have hconf := serializeChunksVec_confined CS c hc fuel (List.drop CS xs)
        (writeU32 (serializeItemsVec c (asU32 pos) (List.take CS xs) 0 (writeU32 (writePlaceholdersVec CS f pos).1 (writePlaceholdersVec CS f pos).2 MAX32) ((writePlaceholdersVec CS f pos).2 + 4)).1 (asU32 (writePlaceholdersVec CS f pos).2) (asU32 (serializeItemsVec c (asU32 pos) (List.take CS xs) 0 (writeU32 (writePlaceholdersVec CS f pos).1 (writePlaceholdersVec CS f pos).2 MAX32) ((writePlaceholdersVec CS f pos).2 + 4)).2)) (serializeItemsVec c (asU32 pos) (List.take CS xs) 0 (writeU32 (writePlaceholdersVec CS f pos).1 (writePlaceholdersVec CS f pos).2 MAX32) ((writePlaceholdersVec CS f pos).2 + 4)).2 (by omega)
      have hres := hidecode g (by have hm : MAX32 = 2 ^ 32 - 1 := rfl; omega)
        (by
          intro q hq1 hq2
          rw [hA q (by omega) (by omega), hconf q (by omega)]
          exact writeU32_frame _ _ _ _ (by omega))
        (by
          intro q hq1 hq2
          rw [hA q (by omega) (by omega), hconf q (by omega)]
          exact writeU32_frame _ _ _ _ (by omega))
        0 rfl
      rw [h32a] at hres
      have hcnt : (List.take CS xs).length + 0 = CS := by
        simp only [List.length_take]
        omega
      rw [hcnt] at hres
      have hlink : readU32 g (pos + CS * 10) = (serializeItemsVec c (asU32 pos) (List.take CS xs) 0 (writeU32 (writePlaceholdersVec CS f pos).1 (writePlaceholdersVec CS f pos).2 MAX32) ((writePlaceholdersVec CS f pos).2 + 4)).2 := by
        have h1 : readU32 g (pos + CS * 10)
            = readU32 (writeU32 (serializeItemsVec c (asU32 pos) (List.take CS xs) 0 (writeU32 (writePlaceholdersVec CS f pos).1 (writePlaceholdersVec CS f pos).2 MAX32) ((writePlaceholdersVec CS f pos).2 + 4)).1 (asU32 (writePlaceholdersVec CS f pos).2) (asU32 (serializeItemsVec c (asU32 pos) (List.take CS xs) 0 (writeU32 (writePlaceholdersVec CS f pos).1 (writePlaceholdersVec CS f pos).2 MAX32) ((writePlaceholdersVec CS f pos).2 + 4)).2)) (pos + CS * 10) := by
          apply readU32_congr
          intro q hq1 hq2
          rw [hA q (by omega) (by omega)]
          exact hconf q (by omega)
        have h2 : pos + CS * 10 = asU32 (writePlaceholdersVec CS f pos).2 := by omega
        rw [h1, h2, readU32_writeU32, h32c]
        omega
      have hP3ne : (serializeItemsVec c (asU32 pos) (List.take CS xs) 0 (writeU32 (writePlaceholdersVec CS f pos).1 (writePlaceholdersVec CS f pos).2 MAX32) ((writePlaceholdersVec CS f pos).2 + 4)).2 ≠ MAX32 := by
        have hm : MAX32 = 2 ^ 32 - 1 := rfl
        omega
      have hrec : deserializeChunksVec CS c g d (serializeItemsVec c (asU32 pos) (List.take CS xs) 0 (writeU32 (writePlaceholdersVec CS f pos).1 (writePlaceholdersVec CS f pos).2 MAX32) ((writePlaceholdersVec CS f pos).2 + 4)).2 = .ok (List.drop CS xs) := by
        apply ih (List.drop CS xs) (writeU32 (serializeItemsVec c (asU32 pos) (List.take CS xs) 0 (writeU32 (writePlaceholdersVec CS f pos).1 (writePlaceholdersVec CS f pos).2 MAX32) ((writePlaceholdersVec CS f pos).2 + 4)).1 (asU32 (writePlaceholdersVec CS f pos).2) (asU32 (serializeItemsVec c (asU32 pos) (List.take CS xs) 0 (writeU32 (writePlaceholdersVec CS f pos).1 (writePlaceholdersVec CS f pos).2 MAX32) ((writePlaceholdersVec CS f pos).2 + 4)).2)) (serializeItemsVec c (asU32 pos) (List.take CS xs) 0 (writeU32 (writePlaceholdersVec CS f pos).1 (writePlaceholdersVec CS f pos).2 MAX32) ((writePlaceholdersVec CS f pos).2 + 4)).2 hdropne
          (by simp only [List.length_drop]; omega) hb g
          (Agree.mono hA (by omega) (le_refl _)) d
          (by simp only [List.length_drop]; omega)
      rw [deserializeChunksVec_step CS c g d pos (List.take CS xs) ((serializeItemsVec c (asU32 pos) (List.take CS xs) 0 (writeU32 (writePlaceholdersVec CS f pos).1 (writePlaceholdersVec CS f pos).2 MAX32) ((writePlaceholdersVec CS f pos).2 + 4)).2) hres hlink,
        if_neg hP3ne, hrec]
      simp [List.take_append_drop]

/-- Claim C5: for every finite list of items whose elements individually
round-trip (formalized by `CodecOk`), deserializing at the offset returned
by `LazyItemVec::serialize` recovers the list, via 10-byte slots in chunks
of `CHUNK_SIZE` linked by next-chunk pointers terminated by `u32::MAX`; the
empty list writes nothing and returns `u32::MAX`, and deserializing the
`u32::MAX` offset yields the empty list. The `CHUNK_SIZE` constant is
positive, the deserializer's chunk fuel covers the list, and the file stays
below the 4 GiB offset sentinel. -/
theorem C5_vec_chunked_roundtrip (It : Type) (CS : Nat) (c : ItemCodec It)
    (hc : CodecOk c) (hCS : 0 < CS) (xs : List It) (f : Nat → Nat) (pos : Nat)
    (version_id version_number : Nat) (dfuel : Nat) (hdfuel : xs.length ≤ dfuel)
    (hbound : (LazyItemVec.serialize CS c xs f pos).2.1 < 2 ^ 32 - 1) :
    LazyItemVec.serialize CS c ([] : List It) f pos = (f, pos, MAX32) ∧
    LazyItemVec.deserialize CS c f (.valid MAX32 version_id version_number) dfuel
      = ⟨.ok [], 0, 0⟩ ∧
    (xs ≠ [] →
      LazyItemVec.deserialize CS c (LazyItemVec.serialize CS c xs f pos).1
          (.valid (LazyItemVec.serialize CS c xs f pos).2.2 version_id version_number) dfuel
        = ⟨.ok xs, 1, 1⟩) := by
  refine ⟨rfl, by simp [LazyItemVec.deserialize], ?_⟩
  intro hne
  have hni : xs.isEmpty = false := by
    cases xs with
    | nil => exact absurd rfl hne
    | cons a as => rfl
  have hserial : LazyItemVec.serialize CS c xs f pos
      = ((serializeChunksVec CS c xs.length xs f pos).1,
         (serializeChunksVec CS c xs.length xs f pos).2, asU32 pos) := by
    simp [LazyItemVec.serialize, hni]
  rw [hserial] at hbound ⊢
  dsimp only at hbound ⊢
  have hmono := serializeChunksVec_mono CS c hc xs.length xs f pos
  have hposlt : pos < 2 ^ 32 := by omega
  have h32a : asU32 pos = pos := asU32_of_lt pos hposlt
  have hposne : pos ≠ MAX32 := by
    have hm : MAX32 = 2 ^ 32 - 1 := rfl
    omega
  have hdec := serializeChunksVec_decode CS c hc hCS xs.length xs f pos hne (le_refl _)
    hbound (serializeChunksVec CS c xs.length xs f pos).1
    (fun q _ _ => rfl) dfuel hdfuel
  rw [h32a]
  simp only [LazyItemVec.deserialize]
  rw [if_neg hposne, hdec]

/-- Concrete single-byte item codec instantiating the round-trip theorems:
an item is one byte, written at the cursor, reloaded by reading the byte at
its offset. -/
def byteCodec : ItemCodec (Fin 256) :=
  ⟨fun f p x => (writeByte f p x.val, p + 1, p),
   fun f off _ _ => if h : f off < 256 then .ok ⟨f off, h⟩ else .error .ioFailure,
   fun _ => 0, fun _ => 0⟩

theorem byteCodec_ok : CodecOk byteCodec := by
  refine ⟨?_, ?_, ?_, ?_, ?_, ?_, ?_⟩
  · intro f p x
    simp only [byteCodec]
    omega
  · intro f p x q h
    simp only [byteCodec] at h ⊢
    exact writeByte_other f p x.val q (by omega)
  · intro f p x
    simp only [byteCodec]
    omega
  · intro f p x
    simp only [byteCodec]
    omega
  · intro x
    simp only [byteCodec]
    omega
  · intro x
    simp only [byteCodec]
    omega
  · intro f p x g hA
    simp only [byteCodec] at hA ⊢
    have hgp : g p = x.val := by
      rw [hA p (le_refl p) (by omega), writeByte_same]
      have := x.isLt
      omega
    rw [hgp, dif_pos x.isLt]

/-- Witness for C5: three single-byte items with chunk size 2 (two chunks,
one trailing empty slot) round-trip on a fresh file, and the empty list
serializes to and deserializes from the `u32::MAX` sentinel. -/
theorem C5_vec_chunked_roundtrip_witness :
    LazyItemVec.serialize 2 byteCodec ([] : List (Fin 256)) (fun _ => 0) 0
      = (fun _ => 0, 0, MAX32) ∧
    LazyItemVec.deserialize 2 byteCodec (fun _ => 0) (.valid MAX32 7 9) 3
      = ⟨.ok [], 0, 0⟩ ∧
    LazyItemVec.deserialize 2 byteCodec
        (LazyItemVec.serialize 2 byteCodec [(3 : Fin 256), 7, 9] (fun _ => 0) 0).1
        (.valid (LazyItemVec.serialize 2 byteCodec [(3 : Fin 256), 7, 9]
          (fun _ => 0) 0).2.2 7 9) 3
      = ⟨.ok [(3 : Fin 256), 7, 9], 1, 1⟩ := by
  have h := C5_vec_chunked_roundtrip (Fin 256) 2 byteCodec byteCodec_ok (by decide)
    [(3 : Fin 256), 7, 9] (fun _ => 0) 0 7 9 3 (by decide) (by decide)
  exact ⟨h.1, h.2.1, h.2.2 (by decide)⟩

theorem MSB_eq : MSB = 2 ^ 31 := by decide

theorem MSB_lor_eq_add (len : Nat) (h : len < 2 ^ 31) : MSB ||| len = 2 ^ 31 + len := by
  have h2 := Nat.mul_add_lt_is_or h 1
  rw [MSB_eq]
  simpa using h2.symm

theorem and_MSB_eq_zero (n : Nat) (h : n < 2 ^ 31) : n &&& MSB = 0 := by
  rw [MSB_eq, Nat.and_two_pow, Nat.testBit_eq_false_of_lt h]
  simp

theorem lor_and_MSB_ne_zero (len : Nat) : (MSB ||| len) &&& MSB ≠ 0 := by
  rw [MSB_eq, Nat.and_two_pow, Nat.testBit_lor, Nat.testBit_two_pow_self]
  simp

theorem msb_len_recover (len : Nat) (h : len < 2 ^ 31) :
    ((2 ^ 31 + len) <<< 1 % 2 ^ 32) >>> 1 = len := by
  rw [Nat.shiftLeft_eq, Nat.shiftRight_eq_div_pow]
  simp only [pow_one]
  omega

theorem writeBytes_inside (bs : List Nat) : ∀ (f : Nat → Nat) (p i : Nat) (h : i < bs.length),
    writeBytes f p bs (p + i) = bs.get ⟨i, h⟩ % 2 ^ 8 := by
  induction bs with
  | nil => intro f p i h; simp at h
  | cons b bs ih =>
    intro f p i h
    cases i with
    | zero =>
      show writeBytes (writeByte f p b) (p + 1) bs (p + 0) = b % 2 ^ 8
      rw [writeBytes_frame bs _ _ _ (by omega)]
      have hp : p + 0 = p := by omega
      rw [hp, writeByte_same]
    | succ i =>
      show writeBytes (writeByte f p b) (p + 1) bs (p + (i + 1)) = _
      have hp : p + (i + 1) = p + 1 + i := by omega
      rw [hp, ih _ _ i (by simpa using h)]
      rfl

theorem readBytes_eq (g : Nat → Nat) (p : Nat) (bs : List Nat)
    (h : ∀ i, (hi : i < bs.length) → g (p + i) = bs.get ⟨i, hi⟩) :
    readBytes g p bs.length = bs := by
  apply List.ext_get
  · simp [readBytes]
  · intro i h1 h2
    simp only [readBytes, List.get_eq_getElem, List.getElem_map, List.getElem_range]
    exact h i h2

/-- Wellformedness of a key in the claim's restricted range (amended): the
integer fits below the MSB tag bit, the string is valid UTF-8 of byte values
(`u8`) and of length below `2^31`. -/
def IdentityMapKey.wf : IdentityMapKey → Prop
  | .int n => n < 2 ^ 31
  | .str bytes => utf8Valid bytes = true ∧ bytes.length < 2 ^ 31 ∧ ∀ b ∈ bytes, b < 2 ^ 8

theorem IdentityMapKey.serialize_spec (k : IdentityMapKey) (f : Nat → Nat) (pos : Nat) :
    pos ≤ (IdentityMapKey.serialize f pos k).2.1 ∧
    (IdentityMapKey.serialize f pos k).2.2 = asU32 pos ∧
    (∀ q, q < pos ∨ (IdentityMapKey.serialize f pos k).2.1 ≤ q →
      (IdentityMapKey.serialize f pos k).1 q = f q) := by
  cases k with
  | int n =>
    refine ⟨by simp [IdentityMapKey.serialize], rfl, ?_⟩
    intro q hq
    simp only [IdentityMapKey.serialize] at hq ⊢
    exact writeU32_frame _ _ _ _ (by omega)
  | str bytes =>
    refine ⟨by simp only [IdentityMapKey.serialize]; omega, rfl, ?_⟩
    intro q hq
    simp only [IdentityMapKey.serialize] at hq ⊢
    rw [writeBytes_frame _ _ _ _ (by omega), writeU32_frame _ _ _ _ (by omega)]

theorem IdentityMapKey.round (k : IdentityMapKey) (hk : IdentityMapKey.wf k)
    (f : Nat → Nat) (pos : Nat) (version_id version_number : Nat)
    (g : Nat → Nat)
    (hA : Agree g (IdentityMapKey.serialize f pos k).1 pos
      (IdentityMapKey.serialize f pos k).2.1) :
    (IdentityMapKey.deserialize g (.valid pos version_id version_number)).result = .ok k := by
  cases k with
  | int n =>
    have hn : n < 2 ^ 31 := hk
    have hnum : readU32 g pos = n := by
      have h1 : readU32 g pos = readU32 (writeU32 f pos n) pos := by
        apply readU32_congr
        intro q h1 h2
        exact hA q (by omega) (by simpa [IdentityMapKey.serialize] using h2)
      rw [h1, readU32_writeU32]
      omega
    simp only [IdentityMapKey.deserialize, hnum, and_MSB_eq_zero n hn, if_pos]
  | str bytes =>
    obtain ⟨hutf, hlen, hbyte⟩ := hk
    have hlen32 : asU32 bytes.length = bytes.length := asU32_of_lt _ (by omega)
    have hser : IdentityMapKey.serialize f pos (.str bytes)
        = (writeBytes (writeU32 f pos (MSB ||| asU32 bytes.length)) (pos + 4) bytes,
           pos + 4 + bytes.length, asU32 pos) := rfl
    rw [hser] at hA
    dsimp only at hA
    have hnum : readU32 g pos = MSB ||| bytes.length := by
      have h1 : readU32 g pos
          = readU32 (writeU32 f pos (MSB ||| asU32 bytes.length)) pos := by
        apply readU32_congr
        intro q h1 h2
        rw [hA q (by omega) (by omega)]
        exact writeBytes_frame _ _ _ _ (by omega)
      rw [h1, readU32_writeU32, hlen32]
      have hadd := MSB_lor_eq_add bytes.length hlen
      omega
    have hrec : ((MSB ||| bytes.length) <<< 1 % 2 ^ 32) >>> 1 = bytes.length := by
      rw [MSB_lor_eq_add bytes.length hlen]
      exact msb_len_recover bytes.length hlen
    have hbytes : readBytes g (pos + 4) bytes.length = bytes := by
      apply readBytes_eq
      intro i hi
      rw [hA (pos + 4 + i) (by omega) (by omega), writeBytes_inside bytes _ _ i hi]
      have := hbyte (bytes.get ⟨i, hi⟩) (bytes.get_mem i hi)
      omega
    simp only [IdentityMapKey.deserialize, hnum]
    rw [if_neg (lor_and_MSB_ne_zero bytes.length), hrec, hbytes, if_pos hutf]

theorem writeEmptySlotMap_frame (f : Nat → Nat) (pos q : Nat) (h : q < pos ∨ pos + 14 ≤ q) :
    writeEmptySlotMap f pos q = f q := by
  unfold writeEmptySlotMap
  rw [writeU32_frame _ _ _ _ (by omega), writeU16_frame _ _ _ _ (by omega),
    writeU32_frame _ _ _ _ (by omega), writeU32_frame _ _ _ _ (by omega)]

theorem writeEmptySlotMap_inside (f : Nat → Nat) (pos q : Nat) (h1 : pos ≤ q)
    (h2 : q < pos + 14) : writeEmptySlotMap f pos q = 255 := by
  unfold writeEmptySlotMap
  by_cases hc1 : pos + 10 ≤ q
  · exact writeU32_max_inside _ _ _ hc1 (by omega)
  · rw [writeU32_frame _ _ _ _ (by omega)]
    by_cases hc2 : pos + 8 ≤ q
    · exact writeU16_max_inside _ _ _ hc2 (by omega)
    · rw [writeU16_frame _ _ _ _ (by omega)]
      by_cases hc3 : pos + 4 ≤ q
      · exact writeU32_max_inside _ _ _ hc3 (by omega)
      · rw [writeU32_frame _ _ _ _ (by omega)]
        exact writeU32_max_inside _ _ _ h1 (by omega)

theorem writePlaceholdersMap_spec : ∀ (n : Nat) (f : Nat → Nat) (pos : Nat),
    (writePlaceholdersMap n f pos).2 = pos + n * 14 ∧
    (∀ q, q < pos ∨ pos + n * 14 ≤ q → (writePlaceholdersMap n f pos).1 q = f q) ∧
    (∀ q, pos ≤ q → q < pos + n * 14 → (writePlaceholdersMap n f pos).1 q = 255) := by
  intro n
  induction n with
  | zero =>
    intro f pos
    refine ⟨by simp [writePlaceholdersMap], fun q _ => rfl, fun q h1 h2 => by omega⟩
  | succ n ih =>
    intro f pos
    have hstep : writePlaceholdersMap (n + 1) f pos
        = writePlaceholdersMap n (writeEmptySlotMap f pos) (pos + 14) := rfl
    rw [hstep]
    obtain ⟨hlen, hframe, hin⟩ := ih (writeEmptySlotMap f pos) (pos + 14)
    refine ⟨by rw [hlen]; omega, ?_, ?_⟩
    · intro q hq
      rw [hframe q (by omega), writeEmptySlotMap_frame f pos q (by omega)]
    · intro q h1 h2
      by_cases hc : q < pos + 14
      · rw [hframe q (by omega)]
        exact writeEmptySlotMap_inside f pos q h1 hc
      · exact hin q (by omega) (by omega)

theorem deserializeSlotsMap_ff (c : ItemCodec It) (g : Nat → Nat)
    (ps version_id version_number : Nat) :
    ∀ (m i : Nat), (∀ i2, i ≤ i2 → i2 < i + m → readU32 g (ps + i2 * 14) = MAX32) →
      deserializeSlotsMap c g ps version_id version_number m i = .ok [] := by
  intro m
  induction m with
  | zero => intro i _; rfl
  | succ n ih =>
    intro i h
    simp only [deserializeSlotsMap]
    rw [h i (le_refl i) (by omega)]
    simp only [if_pos]
    exact ih (i + 1) (fun i2 h1 h2 => h i2 (by omega) (by omega))

theorem deserializeSlotsMap_cons_live (c : ItemCodec It) (g : Nat → Nat)
    (ps version_id version_number n i : Nat) (koff voff vnum vid : Nat)
    (hkoff : readU32 g (ps + i * 14) = koff)
    (hvoff : readU32 g (ps + i * 14 + 4) = voff)
    (hvnum : readU16 g (ps + i * 14 + 8) = vnum)
    (hvid : readU32 g (ps + i * 14 + 10) = vid)
    (hne : koff ≠ MAX32) :
    deserializeSlotsMap c g ps version_id version_number (n + 1) i =
      (match (IdentityMapKey.deserialize g (.valid koff version_id version_number)).result with
      | .error e => .error e
      | .ok key =>
        match c.deser g voff vnum vid with
        | .error e => .error e
        | .ok value =>
          match deserializeSlotsMap c g ps version_id version_number n (i + 1) with
          | .error e => .error e
          | .ok rest2 => .ok ((key, value) :: rest2)) := by
  simp only [deserializeSlotsMap]
  rw [hkoff, hvoff, hvnum, hvid]
  simp [hne]

theorem serializeItemsMap_spec (c : ItemCodec It) (hc : CodecOk c) :
    ∀ (chunk : List (IdentityMapKey × It)) (j : Nat) (f : Nat → Nat) (pos ps : Nat),
      ps + (j + chunk.length) * 14 ≤ pos →
      (∀ e ∈ chunk, IdentityMapKey.wf e.1) →
      pos ≤ (serializeItemsMap c ps chunk j f pos).2 ∧
      (∀ q, (q < ps + j * 14 ∨ (ps + (j + chunk.length) * 14 ≤ q ∧ q < pos) ∨
          (serializeItemsMap c ps chunk j f pos).2 ≤ q) →
        (serializeItemsMap c ps chunk j f pos).1 q = f q) ∧
      (∀ (g : Nat → Nat) (version_id version_number : Nat),
        (serializeItemsMap c ps chunk j f pos).2 < MAX32 →
        Agree g (serializeItemsMap c ps chunk j f pos).1 (ps + j * 14)
          (ps + (j + chunk.length) * 14) →
        Agree g (serializeItemsMap c ps chunk j f pos).1 pos
          (serializeItemsMap c ps chunk j f pos).2 →
        ∀ m, deserializeSlotsMap c g ps version_id version_number m (j + chunk.length)
            = .ok [] →
          deserializeSlotsMap c g ps version_id version_number (chunk.length + m) j
            = .ok chunk) := by
  intro chunk
  induction chunk with
  | nil =>
    intro j f pos ps hsep hwf
    refine ⟨le_refl pos, fun q _ => rfl, ?_⟩
    intro g version_id version_number _ _ _ m hm
    simpa using hm
  | cons x rest ih =>
    intro j f pos ps hsep hwf
    obtain ⟨key, value⟩ := x
    simp only [List.length_cons] at hsep ⊢
    have hstep : serializeItemsMap c ps ((key, value) :: rest) j f pos
        = serializeItemsMap c ps rest (j + 1)
            (writeU32 (writeU16 (writeU32 (writeU32
              (c.ser (IdentityMapKey.serialize f pos key).1
                (IdentityMapKey.serialize f pos key).2.1 value).1
              (ps + j * 14) (IdentityMapKey.serialize f pos key).2.2)
              (ps + j * 14 + 4)
              (c.ser (IdentityMapKey.serialize f pos key).1
                (IdentityMapKey.serialize f pos key).2.1 value).2.2)
              (ps + j * 14 + 8) (c.vnum value)) (ps + j * 14 + 10) (c.vid value))
            (c.ser (IdentityMapKey.serialize f pos key).1
              (IdentityMapKey.serialize f pos key).2.1 value).2.1 := rfl
    rw [hstep]
    obtain ⟨kmono, koff, kframe⟩ := IdentityMapKey.serialize_spec key f pos
    have vmono := hc.mono (IdentityMapKey.serialize f pos key).1
      (IdentityMapKey.serialize f pos key).2.1 value
    have voffge := hc.off_ge (IdentityMapKey.serialize f pos key).1
      (IdentityMapKey.serialize f pos key).2.1 value
    have voffle := hc.off_le (IdentityMapKey.serialize f pos key).1
      (IdentityMapKey.serialize f pos key).2.1 value
    have hvnumlt := hc.vnum_lt value
    have hvidlt := hc.vid_lt value
    have hkoffle : (IdentityMapKey.serialize f pos key).2.2 ≤ pos := by
      rw [koff]
      exact asU32_le pos
    set F5 : Nat → Nat :=
      writeU32 (writeU16 (writeU32 (writeU32
        (c.ser (IdentityMapKey.serialize f pos key).1
          (IdentityMapKey.serialize f pos key).2.1 value).1
        (ps + j * 14) (IdentityMapKey.serialize f pos key).2.2)
        (ps + j * 14 + 4)
        (c.ser (IdentityMapKey.serialize f pos key).1
          (IdentityMapKey.serialize f pos key).2.1 value).2.2)
        (ps + j * 14 + 8) (c.vnum value)) (ps + j * 14 + 10) (c.vid value) with hF5
    have hsep2 : ps + (j + 1 + rest.length) * 14
        ≤ (c.ser (IdentityMapKey.serialize f pos key).1
            (IdentityMapKey.serialize f pos key).2.1 value).2.1 := by omega
    have hwfr : ∀ e ∈ rest, IdentityMapKey.wf e.1 :=
      fun e he => hwf e (List.mem_cons_of_mem _ he)
    have hwfk : IdentityMapKey.wf key := hwf (key, value) (List.mem_cons_self _ _)
    obtain ⟨ihmono, ihframe, ihdecode⟩ := ih (j + 1) F5
      (c.ser (IdentityMapKey.serialize f pos key).1
        (IdentityMapKey.serialize f pos key).2.1 value).2.1 ps hsep2 hwfr
    have hppos : ps + j * 14 + 14 ≤ pos := by omega
    have hF5out : ∀ q, ps + j * 14 + 14 ≤ q ∨ q < ps + j * 14 →
        F5 q = (c.ser (IdentityMapKey.serialize f pos key).1
          (IdentityMapKey.serialize f pos key).2.1 value).1 q := by
      intro q hq
      rw [hF5, writeU32_frame _ _ _ _ (by omega), writeU16_frame _ _ _ _ (by omega),
        writeU32_frame _ _ _ _ (by omega), writeU32_frame _ _ _ _ (by omega)]
    have hF5f : ∀ q, (q < ps + j * 14 ∨ (ps + j * 14 + 14 ≤ q ∧ q < pos) ∨
        (c.ser (IdentityMapKey.serialize f pos key).1
          (IdentityMapKey.serialize f pos key).2.1 value).2.1 ≤ q) → F5 q = f q := by
      intro q hq
      rw [hF5out q (by omega), hc.confined _ _ _ q (by omega), kframe q (by omega)]
    refine ⟨by omega, ?_, ?_⟩
    · intro q hq
      rw [ihframe q (by omega), hF5f q (by omega)]
    · intro g version_id version_number hbound hAslots hAitems m htrail
      have hposmax : pos < 2 ^ 32 - 1 := by
        have hm2 : MAX32 = 2 ^ 32 - 1 := rfl
        omega
      have hvoffmax : (c.ser (IdentityMapKey.serialize f pos key).1
          (IdentityMapKey.serialize f pos key).2.1 value).2.2 < 2 ^ 32 - 1 := by
        have hm2 : MAX32 = 2 ^ 32 - 1 := rfl
        omega
      have hkoffpos : (IdentityMapKey.serialize f pos key).2.2 = pos := by
        rw [koff]
        exact asU32_of_lt pos (by omega)
      have hslotj : ∀ q, ps + j * 14 ≤ q → q < ps + j * 14 + 14 → g q = F5 q := by
        intro q h1 h2
        rw [hAslots q (by omega) (by omega), ihframe q (by omega)]
      have hread_koff : readU32 g (ps + j * 14) = pos := by
        have h1 : readU32 g (ps + j * 14)
            = readU32 (writeU32
                (c.ser (IdentityMapKey.serialize f pos key).1
                  (IdentityMapKey.serialize f pos key).2.1 value).1
                (ps + j * 14) (IdentityMapKey.serialize f pos key).2.2) (ps + j * 14) := by
          apply readU32_congr
          intro q h1 h2
          rw [hslotj q (by omega) (by omega), hF5, writeU32_frame _ _ _ _ (by omega),
            writeU16_frame _ _ _ _ (by omega), writeU32_frame _ _ _ _ (by omega)]
        rw [h1, readU32_writeU32, hkoffpos]
        omega
      have hread_voff : readU32 g (ps + j * 14 + 4)
          = (c.ser (IdentityMapKey.serialize f pos key).1
              (IdentityMapKey.serialize f pos key).2.1 value).2.2 := by
        have h1 : readU32 g (ps + j * 14 + 4)
            = readU32 (writeU32 (writeU32
                (c.ser (IdentityMapKey.serialize f pos key).1
                  (IdentityMapKey.serialize f pos key).2.1 value).1
                (ps + j * 14) (IdentityMapKey.serialize f pos key).2.2)
                (ps + j * 14 + 4)
                (c.ser (IdentityMapKey.serialize f pos key).1
                  (IdentityMapKey.serialize f pos key).2.1 value).2.2) (ps + j * 14 + 4) := by
          apply readU32_congr
          intro q h1 h2
          rw [hslotj q (by omega) (by omega), hF5, writeU32_frame _ _ _ _ (by omega),
            writeU16_frame _ _ _ _ (by omega)]
        rw [h1, readU32_writeU32]
        omega
      have hread_vnum : readU16 g (ps + j * 14 + 8) = c.vnum value := by
        have h1 : readU16 g (ps + j * 14 + 8)
            = readU16 (writeU16 (writeU32 (writeU32
                (c.ser (IdentityMapKey.serialize f pos key).1
                  (IdentityMapKey.serialize f pos key).2.1 value).1
                (ps + j * 14) (IdentityMapKey.serialize f pos key).2.2)
                (ps + j * 14 + 4)
                (c.ser (IdentityMapKey.serialize f pos key).1
                  (IdentityMapKey.serialize f pos key).2.1 value).2.2)
                (ps + j * 14 + 8) (c.vnum value)) (ps + j * 14 + 8) := by
          apply readU16_congr
          intro q h1 h2
          rw [hslotj q (by omega) (by omega), hF5, writeU32_frame _ _ _ _ (by omega)]
        rw [h1, readU16_writeU16]
        omega
      have hread_vid : readU32 g (ps + j * 14 + 10) = c.vid value := by
        have h1 : readU32 g (ps + j * 14 + 10) = readU32 F5 (ps + j * 14 + 10) := by
          apply readU32_congr
          intro q h1 h2
          exact hslotj q (by omega) (by omega)
        rw [h1, hF5, readU32_writeU32]
        omega
      have hkey : (IdentityMapKey.deserialize g
          (.valid pos version_id version_number)).result = .ok key := by
        apply IdentityMapKey.round key hwfk f pos version_id version_number g
        intro q h1 h2
        rw [hAitems q (by omega) (by omega), ihframe q (by omega), hF5out q (by omega),
          hc.confined _ _ _ q (by omega)]
      have hitem : c.deser g (c.ser (IdentityMapKey.serialize f pos key).1
            (IdentityMapKey.serialize f pos key).2.1 value).2.2 (c.vnum value) (c.vid value)
          = .ok value := by
        apply hc.round _ _ value g
        intro q h1 h2
        rw [hAitems q (by omega) (by omega), ihframe q (by omega), hF5out q (by omega)]
      have htail : deserializeSlotsMap c g ps version_id version_number (rest.length + m)
          (j + 1) = .ok rest := by
        apply ihdecode g version_id version_number hbound
        · exact Agree.mono hAslots (by omega) (by omega)
        · exact Agree.mono hAitems (by omega) (le_refl _)
        · have hidx : j + 1 + rest.length = j + (rest.length + 1) := by omega
          rw [hidx]
          exact htrail
      have hn : rest.length + 1 + m = rest.length + m + 1 := by omega
      have hposne : pos ≠ MAX32 := by
        have hm2 : MAX32 = 2 ^ 32 - 1 := rfl
        omega
      rw [hn, deserializeSlotsMap_cons_live c g ps version_id version_number
        (rest.length + m) j pos
        (c.ser (IdentityMapKey.serialize f pos key).1
          (IdentityMapKey.serialize f pos key).2.1 value).2.2
        (c.vnum value) (c.vid value) hread_koff hread_voff hread_vnum hread_vid hposne,
        hkey, hitem, htail]

theorem deserializeChunksMap_step (CS : Nat) (c : ItemCodec It) (g : Nat → Nat)
    (version_id version_number d pos : Nat) (items : List (IdentityMapKey × It)) (next : Nat)
    (hslots : deserializeSlotsMap c g pos version_id version_number CS 0 = .ok items)
    (hnext : readU32 g (pos + CS * 14) = next) :
    deserializeChunksMap CS c g version_id version_number (d + 1) pos =
      (if next = MAX32 then .ok items
       else
        match deserializeChunksMap CS c g version_id version_number d next with
        | .error e => .error e
        | .ok more => .ok (items ++ more)) := by
  simp only [deserializeChunksMap]
  rw [hslots, hnext]

theorem serializeChunksMap_mono (CS : Nat) (c : ItemCodec It) (hc : CodecOk c) :
    ∀ (fuel : Nat) (xs : List (IdentityMapKey × It)) (f : Nat → Nat) (pos : Nat),
      (∀ e ∈ xs, IdentityMapKey.wf e.1) →
      pos ≤ (serializeChunksMap CS c fuel xs f pos).2 := by
  intro fuel
  induction fuel with
  | zero => intro xs f pos _; exact le_refl pos
  | succ fuel ih =>
    intro xs f pos hwf
    simp only [serializeChunksMap]
    have h1 := (writePlaceholdersMap_spec CS f pos).1
    have hlen : (List.take CS xs).length ≤ CS := by
      simp [List.length_take]
    have hps : asU32 pos ≤ pos := asU32_le pos
    have hsep : asU32 pos + (0 + (List.take CS xs).length) * 14
        ≤ (writePlaceholdersMap CS f pos).2 + 4 := by omega
    have hwft : ∀ e ∈ List.take CS xs, IdentityMapKey.wf e.1 :=
      fun e he => hwf e (List.mem_of_mem_take he)
    have h2 := (serializeItemsMap_spec c hc (List.take CS xs) 0
      (writeU32 (writePlaceholdersMap CS f pos).1 (writePlaceholdersMap CS f pos).2 MAX32) ((writePlaceholdersMap CS f pos).2 + 4) (asU32 pos) hsep hwft).1
    split
    · omega
    · have hwfd : ∀ e ∈ List.drop CS xs, IdentityMapKey.wf e.1 :=
        fun e he => hwf e (List.mem_of_mem_drop he)
      have h3 := ih (List.drop CS xs) (writeU32 (serializeItemsMap c (asU32 pos) (List.take CS xs) 0 (writeU32 (writePlaceholdersMap CS f pos).1 (writePlaceholdersMap CS f pos).2 MAX32) ((writePlaceholdersMap CS f pos).2 + 4)).1 (asU32 (writePlaceholdersMap CS f pos).2) (asU32 (serializeItemsMap c (asU32 pos) (List.take CS xs) 0 (writeU32 (writePlaceholdersMap CS f pos).1 (writePlaceholdersMap CS f pos).2 MAX32) ((writePlaceholdersMap CS f pos).2 + 4)).2)) (serializeItemsMap c (asU32 pos) (List.take CS xs) 0 (writeU32 (writePlaceholdersMap CS f pos).1 (writePlaceholdersMap CS f pos).2 MAX32) ((writePlaceholdersMap CS f pos).2 + 4)).2 hwfd
      omega

theorem serializeChunksMap_confined (CS : Nat) (c : ItemCodec It) (hc : CodecOk c) :
    ∀ (fuel : Nat) (xs : List (IdentityMapKey × It)) (f : Nat → Nat) (pos : Nat),
      (∀ e ∈ xs, IdentityMapKey.wf e.1) →
      (serializeChunksMap CS c fuel xs f pos).2 < 2 ^ 32 →
      ∀ q, q < pos → (serializeChunksMap CS c fuel xs f pos).1 q = f q := by
  intro fuel
  induction fuel with
  | zero => intro xs f pos _ _ q _; rfl
  | succ fuel ih =>
    intro xs f pos hwf hb q hq
    simp only [serializeChunksMap] at hb ⊢
    have hpl2 := (writePlaceholdersMap_spec CS f pos).1
    have hplframe := (writePlaceholdersMap_spec CS f pos).2.1
    have hlen : (List.take CS xs).length ≤ CS := by simp [List.length_take]
    have hps : asU32 pos ≤ pos := asU32_le pos
    have hsep : asU32 pos + (0 + (List.take CS xs).length) * 14
        ≤ (writePlaceholdersMap CS f pos).2 + 4 := by omega
    have hwft : ∀ e ∈ List.take CS xs, IdentityMapKey.wf e.1 :=
      fun e he => hwf e (List.mem_of_mem_take he)
    have hwfd : ∀ e ∈ List.drop CS xs, IdentityMapKey.wf e.1 :=
      fun e he => hwf e (List.mem_of_mem_drop he)
    obtain ⟨himono, hiframe, _⟩ := serializeItemsMap_spec c hc (List.take CS xs) 0
      (writeU32 (writePlaceholdersMap CS f pos).1 (writePlaceholdersMap CS f pos).2 MAX32) ((writePlaceholdersMap CS f pos).2 + 4) (asU32 pos) hsep hwft
    by_cases hrest : (List.drop CS xs).isEmpty
    · rw [if_pos hrest] at hb ⊢
      dsimp only at hb ⊢
      have hposlt : pos < 2 ^ 32 := by omega
      have h32a : asU32 pos = pos := asU32_of_lt pos hposlt
      have h32b : asU32 (writePlaceholdersMap CS f pos).2 = (writePlaceholdersMap CS f pos).2 := asU32_of_lt _ (by omega)
      rw [writeU32_frame _ _ _ _ (by omega), hiframe q (by omega),
        writeU32_frame _ _ _ _ (by omega), hplframe q (by omega)]
    · rw [if_neg hrest] at hb ⊢
      have hmono2 := serializeChunksMap_mono CS c hc fuel (List.drop CS xs)
        (writeU32 (serializeItemsMap c (asU32 pos) (List.take CS xs) 0 (writeU32 (writePlaceholdersMap CS f pos).1 (writePlaceholdersMap CS f pos).2 MAX32) ((writePlaceholdersMap CS f pos).2 + 4)).1 (asU32 (writePlaceholdersMap CS f pos).2) (asU32 (serializeItemsMap c (asU32 pos) (List.take CS xs) 0 (writeU32 (writePlaceholdersMap CS f pos).1 (writePlaceholdersMap CS f pos).2 MAX32) ((writePlaceholdersMap CS f pos).2 + 4)).2)) (serializeItemsMap c (asU32 pos) (List.take CS xs) 0 (writeU32 (writePlaceholdersMap CS f pos).1 (writePlaceholdersMap CS f pos).2 MAX32) ((writePlaceholdersMap CS f pos).2 + 4)).2 hwfd
      have hposlt : pos < 2 ^ 32 := by omega
      have h32a : asU32 pos = pos := asU32_of_lt pos hposlt
      have h32b : asU32 (writePlaceholdersMap CS f pos).2 = (writePlaceholdersMap CS f pos).2 := asU32_of_lt _ (by omega)
      rw [ih (List.drop CS xs) _ _ hwfd hb q (by omega),
        writeU32_frame _ _ _ _ (by omega), hiframe q (by omega),
        writeU32_frame _ _ _ _ (by omega), hplframe q (by omega)]

theorem serializeChunksMap_decode (CS : Nat) (c : ItemCodec It) (hc : CodecOk c)
    (hCS : 0 < CS) :
    ∀ (fuel : Nat) (xs : List (IdentityMapKey × It)) (f : Nat → Nat) (pos : Nat),
      xs ≠ [] → xs.length ≤ fuel →
      (∀ e ∈ xs, IdentityMapKey.wf e.1) →
      (serializeChunksMap CS c fuel xs f pos).2 < 2 ^ 32 - 1 →
      ∀ g, Agree g (serializeChunksMap CS c fuel xs f pos).1 pos
          (serializeChunksMap CS c fuel xs f pos).2 →
      ∀ (version_id version_number dfuel : Nat), xs.length ≤ dfuel →
        deserializeChunksMap CS c g version_id version_number dfuel pos = .ok xs := by
  intro fuel
  induction fuel with
  | zero =>
    intro xs f pos hne hlenf
    cases xs with
    | nil => exact absurd rfl hne
    | cons a as => simp at hlenf
  | succ fuel ih =>
    intro xs f pos hne hlenf hwf hb g hA version_id version_number dfuel hdfuel
    obtain ⟨d, rfl⟩ : ∃ d, dfuel = d + 1 := by
      cases dfuel with
      | zero =>
        cases xs with
        | nil => exact absurd rfl hne
        | cons a as => simp at hdfuel
      | succ d => exact ⟨d, rfl⟩
    simp only [serializeChunksMap] at hb hA
    have hpl2 := (writePlaceholdersMap_spec CS f pos).1
    have hplframe := (writePlaceholdersMap_spec CS f pos).2.1
    have hplin := (writePlaceholdersMap_spec CS f pos).2.2
    have hlen : (List.take CS xs).length ≤ CS := by simp [List.length_take]
    have hlenpos : 0 < xs.length := List.length_pos.mpr hne
    have hps : asU32 pos ≤ pos := asU32_le pos
    have hsep : asU32 pos + (0 + (List.take CS xs).length) * 14
        ≤ (writePlaceholdersMap CS f pos).2 + 4 := by omega
    have hwft : ∀ e ∈ List.take CS xs, IdentityMapKey.wf e.1 :=
      fun e he => hwf e (List.mem_of_mem_take he)
    have hwfd : ∀ e ∈ List.drop CS xs, IdentityMapKey.wf e.1 :=
      fun e he => hwf e (List.mem_of_mem_drop he)
    obtain ⟨himono, hiframe, hidecode⟩ := serializeItemsMap_spec c hc (List.take CS xs) 0
      (writeU32 (writePlaceholdersMap CS f pos).1 (writePlaceholdersMap CS f pos).2 MAX32) ((writePlaceholdersMap CS f pos).2 + 4) (asU32 pos) hsep hwft
    by_cases hrest : (List.drop CS xs).isEmpty
    · rw [if_pos hrest] at hb hA
      dsimp only at hb hA
      have hposlt : pos < 2 ^ 32 := by omega
      have h32a : asU32 pos = pos := asU32_of_lt pos hposlt
      have h32b : asU32 (writePlaceholdersMap CS f pos).2 = (writePlaceholdersMap CS f pos).2 := asU32_of_lt _ (by omega)
      have hdropnil : List.drop CS xs = [] := by simpa using hrest
      have hxs : List.take CS xs = xs := by
        have h2 := List.take_append_drop CS xs
        rwa [hdropnil, List.append_nil] at h2
      have htrail : deserializeSlotsMap c g (asU32 pos) version_id version_number
          (CS - (List.take CS xs).length) (0 + (List.take CS xs).length) = .ok [] := by
        apply deserializeSlotsMap_ff
        intro i2 h1 h2
        apply readU32_of_ff
        intro q hq1 hq2
        rw [hA q (by omega) (by omega), writeU32_frame _ _ _ _ (by omega),
          hiframe q (by omega), writeU32_frame _ _ _ _ (by omega)]
        exact hplin q (by omega) (by omega)
      have hres := hidecode g version_id version_number
        (by have hm : MAX32 = 2 ^ 32 - 1 := rfl; omega)
        (by
          intro q hq1 hq2
          rw [hA q (by omega) (by omega)]
          exact writeU32_frame _ _ _ _ (by omega))
        (by
          intro q hq1 hq2
          rw [hA q (by omega) (by omega)]
          exact writeU32_frame _ _ _ _ (by omega))
        (CS - (List.take CS xs).length) htrail
      rw [h32a] at hres
      have hcnt : (List.take CS xs).length + (CS - (List.take CS xs).length) = CS := by omega
      rw [hcnt] at hres
      have hlink : readU32 g (pos + CS * 14) = MAX32 := by
        have h1 : readU32 g (pos + CS * 14)
            = readU32 (writeU32 (serializeItemsMap c (asU32 pos) (List.take CS xs) 0 (writeU32 (writePlaceholdersMap CS f pos).1 (writePlaceholdersMap CS f pos).2 MAX32) ((writePlaceholdersMap CS f pos).2 + 4)).1 (asU32 (writePlaceholdersMap CS f pos).2) MAX32) (pos + CS * 14) := by
          apply readU32_congr
          intro q hq1 hq2
          exact hA q (by omega) (by omega)
        have h2 : pos + CS * 14 = asU32 (writePlaceholdersMap CS f pos).2 := by omega
        rw [h1, h2, readU32_writeU32]
        decide
      rw [deserializeChunksMap_step CS c g version_id version_number d pos
        (List.take CS xs) MAX32 hres hlink, if_pos rfl, hxs]
    · rw [if_neg hrest] at hb hA
      have hdropne : List.drop CS xs ≠ [] := by
        intro h2
        exact hrest (by simp [h2])
      have hCSlt : CS < xs.length := by
        have h2 : 0 < (List.drop CS xs).length := List.length_pos.mpr hdropne
        simp only [List.length_drop] at h2
        omega
      have hreclow := serializeChunksMap_mono CS c hc fuel (List.drop CS xs)
        (writeU32 (serializeItemsMap c (asU32 pos) (List.take CS xs) 0 (writeU32 (writePlaceholdersMap CS f pos).1 (writePlaceholdersMap CS f pos).2 MAX32) ((writePlaceholdersMap CS f pos).2 + 4)).1 (asU32 (writePlaceholdersMap CS f pos).2) (asU32 (serializeItemsMap c (asU32 pos) (List.take CS xs) 0 (writeU32 (writePlaceholdersMap CS f pos).1 (writePlaceholdersMap CS f pos).2 MAX32) ((writePlaceholdersMap CS f pos).2 + 4)).2)) (serializeItemsMap c (asU32 pos) (List.take CS xs) 0 (writeU32 (writePlaceholdersMap CS f pos).1 (writePlaceholdersMap CS f pos).2 MAX32) ((writePlaceholdersMap CS f pos).2 + 4)).2 hwfd
      have hposlt : pos < 2 ^ 32 := by omega
      have h32a : asU32 pos = pos := asU32_of_lt pos hposlt
      have h32b : asU32 (writePlaceholdersMap CS f pos).2 = (writePlaceholdersMap CS f pos).2 := asU32_of_lt _ (by omega)
      have h32c : asU32 (serializeItemsMap c (asU32 pos) (List.take CS xs) 0 (writeU32 (writePlaceholdersMap CS f pos).1 (writePlaceholdersMap CS f pos).2 MAX32) ((writePlaceholdersMap CS f pos).2 + 4)).2 = (serializeItemsMap c (asU32 pos) (List.take CS xs) 0 (writeU32 (writePlaceholdersMap CS f pos).1 (writePlaceholdersMap CS f pos).2 MAX32) ((writePlaceholdersMap CS f pos).2 + 4)).2 := asU32_of_lt _ (by omega)
      have hconf := serializeChunksMap_confined CS c hc fuel (List.drop CS xs)
        (writeU32 (serializeItemsMap c (asU32 pos) (List.take CS xs) 0 (writeU32 (writePlaceholdersMap CS f pos).1 (writePlaceholdersMap CS f pos).2 MAX32) ((writePlaceholdersMap CS f pos).2 + 4)).1 (asU32 (writePlaceholdersMap CS f pos).2) (asU32 (serializeItemsMap c (asU32 pos) (List.take CS xs) 0 (writeU32 (writePlaceholdersMap CS f pos).1 (writePlaceholdersMap CS f pos).2 MAX32) ((writePlaceholdersMap CS f pos).2 + 4)).2)) (serializeItemsMap c (asU32 pos) (List.take CS xs) 0 (writeU32 (writePlaceholdersMap CS f pos).1 (writePlaceholdersMap CS f pos).2 MAX32) ((writePlaceholdersMap CS f pos).2 + 4)).2 hwfd (by omega)
      have hres := hidecode g version_id version_number
        (by have hm : MAX32 = 2 ^ 32 - 1 := rfl; omega)
        (by
          intro q hq1 hq2
          rw [hA q (by omega) (by omega), hconf q (by omega)]
          exact writeU32_frame _ _ _ _ (by omega))
        (by
          intro q hq1 hq2
          rw [hA q (by omega) (by omega), hconf q (by omega)]
          exact writeU32_frame _ _ _ _ (by omega))
        0 rfl
      rw [h32a] at hres
      have hcnt : (List.take CS xs).length + 0 = CS := by
        simp only [List.length_take]
        omega
      rw [hcnt] at hres
      have hlink : readU32 g (pos + CS * 14) = (serializeItemsMap c (asU32 pos) (List.take CS xs) 0 (writeU32 (writePlaceholdersMap CS f pos).1 (writePlaceholdersMap CS f pos).2 MAX32) ((writePlaceholdersMap CS f pos).2 + 4)).2 := by
        have h1 : readU32 g (pos + CS * 14)
            = readU32 (writeU32 (serializeItemsMap c (asU32 pos) (List.take CS xs) 0 (writeU32 (writePlaceholdersMap CS f pos).1 (writePlaceholdersMap CS f pos).2 MAX32) ((writePlaceholdersMap CS f pos).2 + 4)).1 (asU32 (writePlaceholdersMap CS f pos).2) (asU32 (serializeItemsMap c (asU32 pos) (List.take CS xs) 0 (writeU32 (writePlaceholdersMap CS f pos).1 (writePlaceholdersMap CS f pos).2 MAX32) ((writePlaceholdersMap CS f pos).2 + 4)).2)) (pos + CS * 14) := by
          apply readU32_congr
          intro q hq1 hq2
          rw [hA q (by omega) (by omega)]
          exact hconf q (by omega)
        have h2 : pos + CS * 14 = asU32 (writePlaceholdersMap CS f pos).2 := by omega
        rw [h1, h2, readU32_writeU32, h32c]
        omega
      have hP3ne : (serializeItemsMap c (asU32 pos) (List.take CS xs) 0 (writeU32 (writePlaceholdersMap CS f pos).1 (writePlaceholdersMap CS f pos).2 MAX32) ((writePlaceholdersMap CS f pos).2 + 4)).2 ≠ MAX32 := by
        have hm : MAX32 = 2 ^ 32 - 1 := rfl
        omega
      have hrec : deserializeChunksMap CS c g version_id version_number d (serializeItemsMap c (asU32 pos) (List.take CS xs) 0 (writeU32 (writePlaceholdersMap CS f pos).1 (writePlaceholdersMap CS f pos).2 MAX32) ((writePlaceholdersMap CS f pos).2 + 4)).2
          = .ok (List.drop CS xs) := by
        apply ih (List.drop CS xs) (writeU32 (serializeItemsMap c (asU32 pos) (List.take CS xs) 0 (writeU32 (writePlaceholdersMap CS f pos).1 (writePlaceholdersMap CS f pos).2 MAX32) ((writePlaceholdersMap CS f pos).2 + 4)).1 (asU32 (writePlaceholdersMap CS f pos).2) (asU32 (serializeItemsMap c (asU32 pos) (List.take CS xs) 0 (writeU32 (writePlaceholdersMap CS f pos).1 (writePlaceholdersMap CS f pos).2 MAX32) ((writePlaceholdersMap CS f pos).2 + 4)).2)) (serializeItemsMap c (asU32 pos) (List.take CS xs) 0 (writeU32 (writePlaceholdersMap CS f pos).1 (writePlaceholdersMap CS f pos).2 MAX32) ((writePlaceholdersMap CS f pos).2 + 4)).2 hdropne
          (by simp only [List.length_drop]; omega) hwfd hb g
          (Agree.mono hA (by omega) (le_refl _)) version_id version_number d
          (by simp only [List.length_drop]; omega)
      rw [deserializeChunksMap_step CS c g version_id version_number d pos
        (List.take CS xs) ((serializeItemsMap c (asU32 pos) (List.take CS xs) 0 (writeU32 (writePlaceholdersMap CS f pos).1 (writePlaceholdersMap CS f pos).2 MAX32) ((writePlaceholdersMap CS f pos).2 + 4)).2) hres hlink, if_neg hP3ne, hrec]
      simp [List.take_append_drop]

/-- Claim C4, counterexample: an `Int` key with the MSB set does not
round-trip — the map `{Int(2^31) ↦ 5}` deserializes to `{String "" ↦ 5}`:
`IdentityMapKey::serialize` writes the integer's raw value with no tag, so
on reload the set bit 31 selects the String arm, which reads a length-0
string. -/
theorem C4_counterexample_int_msb_misread_as_string :
    (LazyItemMap.deserialize 2 byteCodec
        (LazyItemMap.serialize 2 byteCodec [(.int (2 ^ 31), (5 : Fin 256))]
          (fun _ => 0) 0).1
        (.valid (LazyItemMap.serialize 2 byteCodec [(.int (2 ^ 31), (5 : Fin 256))]
          (fun _ => 0) 0).2.2 7 9) 2).result
      = .ok [(.str [], (5 : Fin 256))] ∧
    ([((IdentityMapKey.str []), (5 : Fin 256))] : List (IdentityMapKey × Fin 256))
      ≠ [(.int (2 ^ 31), (5 : Fin 256))] := by
  refine ⟨by decide, by decide⟩

/-- Claim C4, amended: for every map (in iteration order) whose keys are
`Int` values below `2^31` or valid-UTF-8 `String`s of byte length below
`2^31`, and whose values round-trip (`CodecOk`), deserializing the
serialized map yields an equal map; within that range the MSB tag always
recovers the original variant. `Int` keys with the MSB set are instead
misread as strings on reload (see the counterexample). As for the sequence
layout, `CHUNK_SIZE` is positive, the chunk fuel covers the map and the
file stays below the 4 GiB sentinel. -/
theorem C4_map_roundtrip (It : Type) (CS : Nat) (c : ItemCodec It) (hc : CodecOk c)
    (hCS : 0 < CS) (xs : List (IdentityMapKey × It)) (f : Nat → Nat) (pos : Nat)
    (version_id version_number : Nat) (dfuel : Nat) (hdfuel : xs.length ≤ dfuel)
    (hwf : ∀ e ∈ xs, IdentityMapKey.wf e.1)
    (hbound : (LazyItemMap.serialize CS c xs f pos).2.1 < 2 ^ 32 - 1) :
    LazyItemMap.serialize CS c ([] : List (IdentityMapKey × It)) f pos = (f, pos, MAX32) ∧
    LazyItemMap.deserialize CS c f (.valid MAX32 version_id version_number) dfuel
      = ⟨.ok [], 0, 0⟩ ∧
    (xs ≠ [] →
      LazyItemMap.deserialize CS c (LazyItemMap.serialize CS c xs f pos).1
          (.valid (LazyItemMap.serialize CS c xs f pos).2.2 version_id version_number) dfuel
        = ⟨.ok xs, 1, 1⟩) := by
  refine ⟨rfl, by simp [LazyItemMap.deserialize], ?_⟩
  intro hne
  have hni : xs.isEmpty = false := by
    cases xs with
    | nil => exact absurd rfl hne
    | cons a as => rfl
  have hserial : LazyItemMap.serialize CS c xs f pos
      = ((serializeChunksMap CS c xs.length xs f pos).1,
         (serializeChunksMap CS c xs.length xs f pos).2, asU32 pos) := by
    simp [LazyItemMap.serialize, hni]
  rw [hserial] at hbound ⊢
  dsimp only at hbound ⊢
  have hmono := serializeChunksMap_mono CS c hc xs.length xs f pos hwf
  have hposlt : pos < 2 ^ 32 := by omega
  have h32a : asU32 pos = pos := asU32_of_lt pos hposlt
  have hposne : pos ≠ MAX32 := by
    have hm : MAX32 = 2 ^ 32 - 1 := rfl
    omega
  have hdec := serializeChunksMap_decode CS c hc hCS xs.length xs f pos hne (le_refl _)
    hwf hbound (serializeChunksMap CS c xs.length xs f pos).1 (fun q _ _ => rfl)
    version_id version_number dfuel hdfuel
  rw [h32a]
  simp only [LazyItemMap.deserialize]
  rw [if_neg hposne, hdec]

/-- Witness for C4: a three-entry map mixing an integer key, the string
"hi" and another integer, chunk size 2 (two chunks), round-trips on a fresh
file, and the empty map serializes to and deserializes from `u32::MAX`. -/
theorem C4_map_roundtrip_witness :
    LazyItemMap.serialize 2 byteCodec ([] : List (IdentityMapKey × Fin 256)) (fun _ => 0) 0
      = (fun _ => 0, 0, MAX32) ∧
    LazyItemMap.deserialize 2 byteCodec (fun _ => 0) (.valid MAX32 7 9) 3
      = ⟨.ok [], 0, 0⟩ ∧
    LazyItemMap.deserialize 2 byteCodec
        (LazyItemMap.serialize 2 byteCodec
          [(.int 3, (10 : Fin 256)), (.str [104, 105], 20), (.int 7, 30)] (fun _ => 0) 0).1
        (.valid (LazyItemMap.serialize 2 byteCodec
          [(.int 3, (10 : Fin 256)), (.str [104, 105], 20), (.int 7, 30)]
          (fun _ => 0) 0).2.2 7 9) 3
      = ⟨.ok [(.int 3, (10 : Fin 256)), (.str [104, 105], 20), (.int 7, 30)], 1, 1⟩ := by
  have h := C4_map_roundtrip (Fin 256) 2 byteCodec byteCodec_ok (by decide)
    [(.int 3, (10 : Fin 256)), (.str [104, 105], 20), (.int 7, 30)] (fun _ => 0) 0 7 9 3
    (by decide)
    (by
      intro e he
      simp only [List.mem_cons, List.not_mem_nil, or_false] at he
      rcases he with h | h | h <;> subst h <;> simp only [IdentityMapKey.wf] <;> decide)
    (by decide)
  exact ⟨h.1, h.2.1, h.2.2 (by decide)⟩
